import Mathlib

/-!
# gltfpack: the mesh extractor and the output container writer

A shallow embedding of `tools/gltfpack.cpp`: the container-writing part of
`main` (everything after `process` returned) with the string helpers it calls,
and the extractor `parseMeshes` with `transformPosition` and `transformNormal`.

Modelling conventions.

* A `char` is the natural number of its byte value; a C string is the list of
  its characters before the terminating NUL, a `std::string` is the list of its
  characters.
* `writeU32` stores the object representation of a `uint32_t`; the target is
  little-endian (x86, ARM), so the four bytes are emitted least significant
  first.
* The file system is a predicate telling which paths `fopen(_, "wb")` can
  open; writes to an open stream succeed.
* Undefined behaviour (writing past the end of the 32-byte `bufferspec`
  array, dividing by zero) is the result `none`.
* The type `float` is a parameter with the operations the code uses. A theorem
  on values names the laws of float arithmetic it needs; a model of IEEE 754
  binary32 arithmetic, which satisfies them, serves to evaluate the extractor
  on floats.
-/

namespace Gltfpack

/-- Bytes of a string or of a file, each a `char` value. -/
abbrev Bytes := List Nat

/-- The characters of a string literal of the source. -/
def ascii (s : String) : Bytes := s.toList.map Char.toNat

/-! ## C and C++ library functions used by the writer -/

/-- The call `strrchr(s, c)` for `c` other than NUL: the tail of `s` that starts
at the last occurrence of `c`, or `none` for the null pointer. -/
def strrchr : Bytes → Nat → Option Bytes
  | [], _ => none
  | x :: xs, c =>
    match strrchr xs c with
    | some r => some r
    | none => if x = c then some (x :: xs) else none

/-- The test `strcmp(a, b) == 0`. -/
def strcmp_eq (a b : Bytes) : Bool := a == b

/-- The call `s.replace(pos, len, t)` of `std::string`, for `pos ≤ s.size()`. -/
def replace (s : Bytes) (pos len : Nat) (t : Bytes) : Bytes :=
  s.take pos ++ t ++ s.drop (pos + len)

/-- The call `s.find_last_of(set)`: the index of the last character of `s` that
occurs in `set`, `none` for `npos`. -/
def find_last_of : Bytes → Bytes → Option Nat
  | [], _ => none
  | x :: xs, set =>
    match find_last_of xs set with
    | some i => some (i + 1)
    | none => if x ∈ set then some 0 else none

/-- The call `s.erase(0, n)`. -/
def erase0 (s : Bytes) (n : Nat) : Bytes := s.drop n

/-- The conversion `%zu` of `printf`: decimal digits, most significant first. -/
def fmt_zu (n : Nat) : Bytes := (Nat.toDigits 10 n).map Char.toNat

/-- The call `sprintf(buf, ...)` into a `char buf[cap]`: the formatted text and
its terminating NUL must fit, otherwise the call writes past the array. -/
def sprintf (cap : Nat) (text : Bytes) : Option Bytes :=
  if text.length + 1 ≤ cap then some text else none

/-- The function `writeU32`: the four bytes of `data` converted to `uint32_t`. -/
def writeU32 (data : Nat) : Bytes :=
  let d := data % 2 ^ 32
  [d % 256, d / 256 % 256, d / 65536 % 256, d / 16777216 % 256]

/-- The loop `while (s.size() % 4) s.push_back(c);`, unrolled `fuel` times. -/
def padLoop (c : Nat) : Nat → Bytes → Bytes
  | 0, s => s
  | fuel + 1, s => if s.length % 4 ≠ 0 then padLoop c fuel (s ++ [c]) else s

/-! ## The writer -/

/-- What a run of the writer leaves behind. -/
structure Outcome where
  /-- The value returned by `main`. -/
  exitCode : Nat
  /-- The paths passed to `fopen`, in call order. -/
  fopens : List Bytes
  /-- The files opened successfully, with the bytes written to each. -/
  files : List (Bytes × Bytes)
deriving DecidableEq, Repr

/-- The local `binpath` of the split branch. -/
def binpath (output : Bytes) : Bytes :=
  replace output (output.length - 5) 5 (ascii ".bin")

/-- The local `binname` of the split branch. -/
def binname (output : Bytes) : Bytes :=
  let name := binpath output
  match find_last_of name (ascii "/\\") with
  | some slash => erase0 name slash
  | none => name

/-- The text printed to `outjson` by the first `fprintf` of the split branch. -/
def splitBufferSpec (name : Bytes) (size : Nat) : Bytes :=
  ascii "\x7bbuffers:[\x7buri:\"" ++ name ++ ascii "\",byteLength:" ++ fmt_zu size
    ++ ascii "\x7d],"

/-- The branch of `main` taken for `.gltf` and `.GLTF`. -/
def writeSplit (canOpen : Bytes → Bool) (output json bin : Bytes) : Option Outcome :=
  let bp := binpath output
  let bn := binname output
  let outjson := canOpen output
  let outbin := canOpen bp
  if !outjson || !outbin then
    some ⟨4, [output, bp],
      (if outjson then [(output, [])] else []) ++ (if outbin then [(bp, [])] else [])⟩
  else
    some ⟨0, [output, bp],
      [(output, splitBufferSpec bn bin.length ++ json ++ ascii "\x7d"), (bp, bin)]⟩

/-- The text formatted into `bufferspec` in the binary branch. -/
def glbBufferSpec (size : Nat) : Bytes :=
  ascii "\x7bbuffers:[\x7bbyteLength:" ++ fmt_zu size ++ ascii "\x7d],"

/-- The string `json` of the binary branch after the insertion, the closing
brace and the padding loop. -/
def glbJson (json bin : Bytes) : Option Bytes :=
  match sprintf 32 (glbBufferSpec bin.length) with
  | none => none
  | some bufferspec => some (padLoop 32 4 ((bufferspec ++ json) ++ [125]))

/-- The string `bin` of the binary branch after its padding loop. -/
def glbBin (bin : Bytes) : Bytes := padLoop 0 4 bin

/-- The bytes written to `out` in the binary branch, for the final `json` and
`bin` strings. -/
def glbBytes (json bin : Bytes) : Bytes :=
  writeU32 0x46546C67 ++ writeU32 2 ++ writeU32 (12 + 8 + json.length + 8 + bin.length)
    ++ writeU32 0x4E4F534A ++ writeU32 json.length ++ json
    ++ writeU32 0x004E4942 ++ writeU32 bin.length ++ bin

/-- The branch of `main` taken for `.glb` and `.GLB`. -/
def writeBinary (canOpen : Bytes → Bool) (output json bin : Bytes) : Option Outcome :=
  if !canOpen output then
    some ⟨4, [output], []⟩
  else
    match glbJson json bin with
    | none => none
    | some json1 => some ⟨0, [output], [(output, glbBytes json1 (glbBin bin))]⟩

/-- The branch of `main` taken for any other output path. -/
def writeUnknown : Option Outcome := some ⟨4, [], []⟩

/-- The condition `ext && (strcmp(ext, a) == 0 || strcmp(ext, b) == 0)`. -/
def extIs (ext : Option Bytes) (a b : Bytes) : Bool :=
  match ext with
  | some e => strcmp_eq e a || strcmp_eq e b
  | none => false

/-- The function `main` from `const char* ext = strrchr(output, '.')` on: the
container writer, as a function of the output path and of the strings `json`
and `bin` that `process` left. -/
def main (canOpen : Bytes → Bool) (output json bin : Bytes) : Option Outcome :=
  let ext := strrchr output 46
  if extIs ext (ascii ".gltf") (ascii ".GLTF") then
    writeSplit canOpen output json bin
  else if extIs ext (ascii ".glb") (ascii ".GLB") then
    writeBinary canOpen output json bin
  else
    writeUnknown

/-! ## Reading a container back -/

/-- The little-endian 32-bit unsigned integer stored at offset `off` of `bs`. -/
def readU32 (bs : Bytes) (off : Nat) : Nat :=
  match bs.drop off with
  | b0 :: b1 :: b2 :: b3 :: _ => b0 + 256 * b1 + 65536 * b2 + 16777216 * b3
  | _ => 0

/-- The `len` bytes of `bs` from offset `off` on. -/
def slice (bs : Bytes) (off len : Nat) : Bytes := (bs.drop off).take len

/-- ASCII case folding of one character, as `tolower` in the C locale. -/
def tolower (c : Nat) : Nat := if 65 ≤ c ∧ c ≤ 90 then c + 32 else c

/-! ## The mesh extractor

The type `float` is a parameter `F` with the operations the code uses: `+`,
`*`, `/`, the constants `0.f` and `1`, the comparison `==` and the function
`sqrtf`. Nothing is assumed of them in the definitions; a theorem names the
laws of arithmetic it needs. A division whose divisor compares equal to zero is
undefined and gives `none`. The declarations of `cgltf.h` are not part of the
sources at hand; the types and functions of it that the extractor uses are
modelled below. -/

/-- The record `Attr`: the array `float f[4]`, one field a component. -/
structure Attr (F : Type) where
  /-- Component `f[0]`. -/
  f0 : F
  /-- Component `f[1]`. -/
  f1 : F
  /-- Component `f[2]`. -/
  f2 : F
  /-- Component `f[3]`. -/
  f3 : F
deriving DecidableEq, Repr

/-- Modelled from the spec: the enumeration `cgltf_attribute_type` of `cgltf.h`,
the semantic of an attribute channel, with `invalid` for an unknown one. -/
inductive cgltf_attribute_type where
  | invalid
  | position
  | normal
  | tangent
  | texcoord
  | color
  | joints
  | weights
deriving DecidableEq, Repr

/-- Modelled from the spec: the structure `cgltf_accessor` of `cgltf.h` with the
two decoding functions of it. An accessor has `count` elements;
`read_index i` is the value of `cgltf_accessor_read_index(a, i)`, and
`read_float i out` is the content of the four floats `out` after
`cgltf_accessor_read_float(a, i, out, 4)`, which may leave trailing components
as they were. -/
structure cgltf_accessor (F : Type) where
  /-- The field `count`. -/
  count : Nat
  /-- The decoded index at a position, a `cgltf_size`. -/
  read_index : Nat → Nat
  /-- The decoded element at a position, stored over a record. -/
  read_float : Nat → Attr F → Attr F

/-- Modelled from the spec: the structure `cgltf_attribute` of `cgltf.h`, with
the fields the extractor reads. The loader sets `data` for every attribute. -/
structure cgltf_attribute (F : Type) where
  /-- The field `type`, the semantic. -/
  type : cgltf_attribute_type
  /-- The field `index`, the set index. -/
  index : Int
  /-- The accessor behind `data`. -/
  data : cgltf_accessor F

/-- Modelled from the spec: the structure `cgltf_primitive` of `cgltf.h`, with
the fields the extractor reads: the index accessor, null for none, and the
array of `attributes_count` attributes. -/
structure cgltf_primitive (F : Type) where
  /-- The pointer `indices`. -/
  indices : Option (cgltf_accessor F)
  /-- The array `attributes`. -/
  attributes : List (cgltf_attribute F)

/-- Modelled from the spec: the structure `cgltf_mesh` of `cgltf.h`, the array
of `primitives_count` primitives. -/
structure cgltf_mesh (F : Type) where
  /-- The array `primitives`. -/
  primitives : List (cgltf_primitive F)

/-- Modelled from the spec: the structure `cgltf_node` of `cgltf.h`, with the
mesh pointer, null for none, and the 16 floats that
`cgltf_node_transform_world` stores for the node, by index. -/
structure cgltf_node (F : Type) where
  /-- The pointer `mesh`. -/
  mesh : Option (cgltf_mesh F)
  /-- The world transform of the node, column-major. -/
  world : Nat → F

/-- Modelled from the spec: the structure `cgltf_data` of `cgltf.h`, the array
of `nodes_count` nodes. -/
structure cgltf_data (F : Type) where
  /-- The array `nodes`. -/
  nodes : List (cgltf_node F)

/-- The structure `Stream`. -/
structure Stream (F : Type) where
  /-- The semantic. -/
  type : cgltf_attribute_type
  /-- The set index. -/
  index : Int
  /-- The records, one a vertex. -/
  data : List (Attr F)
deriving DecidableEq, Repr

/-- The structure `Mesh`; an index is an `unsigned int`. -/
structure Mesh (F : Type) where
  /-- The attribute streams. -/
  streams : List (Stream F)
  /-- The indices. -/
  indices : List Nat
deriving DecidableEq, Repr

/-- The function `transformPosition`: the record behind `ptr` after the call.
The array behind `transform` is read only. -/
def transformPosition {F : Type} [Add F] [Mul F] (ptr : Attr F) (transform : Nat → F) :
    Attr F :=
  let x := ptr.f0 * transform 0 + ptr.f1 * transform 4 + ptr.f2 * transform 8 + transform 12
  let y := ptr.f0 * transform 1 + ptr.f1 * transform 5 + ptr.f2 * transform 9 + transform 13
  let z := ptr.f0 * transform 2 + ptr.f1 * transform 6 + ptr.f2 * transform 10 + transform 14
  { f0 := x, f1 := y, f2 := z, f3 := ptr.f3 }

/-- The division of two floats; a divisor that compares equal to zero is
undefined. -/
def divide {F : Type} [Div F] [Zero F] [BEq F] (a b : F) : Option F :=
  if b == 0 then none else some (a / b)

/-- The function `transformNormal`: the record behind `ptr` after the call, or
`none` when the call divides by zero. -/
def transformNormal {F : Type} [Add F] [Mul F] [Div F] [Zero F] [One F] [BEq F]
    (sqrtf : F → F) (ptr : Attr F) (transform : Nat → F) : Option (Attr F) :=
  let x := ptr.f0 * transform 0 + ptr.f1 * transform 4 + ptr.f2 * transform 8
  let y := ptr.f0 * transform 1 + ptr.f1 * transform 5 + ptr.f2 * transform 9
  let z := ptr.f0 * transform 2 + ptr.f1 * transform 6 + ptr.f2 * transform 10
  let l := sqrtf (x * x + y * y + z * z)
  match (if l == 0 then some 0 else divide 1 l) with
  | none => none
  | some s => some { f0 := x * s, f1 := y * s, f2 := z * s, f3 := ptr.f3 }

/-- The vector `result.indices` after the resize and the loop over the index
accessor: each decoded index converted to `unsigned int`. -/
def readIndices {F : Type} (a : cgltf_accessor F) : List Nat :=
  (List.range a.count).map (fun i => a.read_index i % 2 ^ 32)

/-- The vector `s.data` after the resize, which zeroes the records, and the
loop of `cgltf_accessor_read_float` calls. -/
def readFloats {F : Type} [Zero F] (a : cgltf_accessor F) : List (Attr F) :=
  (List.range a.count).map (fun i => a.read_float i ⟨0, 0, 0, 0⟩)

/-- The loop `for (i...) transformNormal(s.data[i].f, transform);`. -/
def transformNormals {F : Type} [Add F] [Mul F] [Div F] [Zero F] [One F] [BEq F]
    (sqrtf : F → F) (transform : Nat → F) : List (Attr F) → Option (List (Attr F))
  | [] => some []
  | a :: rest =>
    match transformNormal sqrtf a transform with
    | none => none
    | some b =>
      match transformNormals sqrtf transform rest with
      | none => none
      | some bs => some (b :: bs)

/-- The body of the attribute loop of `parseMeshes` for an attribute whose
semantic is not invalid: the stream `s` that is pushed. -/
def parseAttribute {F : Type} [Add F] [Mul F] [Div F] [Zero F] [One F] [BEq F]
    (sqrtf : F → F) (transform : Nat → F) (attr : cgltf_attribute F) : Option (Stream F) :=
  let data := readFloats attr.data
  if attr.type = cgltf_attribute_type.position then
    some ⟨attr.type, attr.index, data.map (fun a => transformPosition a transform)⟩
  else if attr.type = cgltf_attribute_type.normal
      ∨ attr.type = cgltf_attribute_type.tangent then
    match transformNormals sqrtf transform data with
    | none => none
    | some d => some ⟨attr.type, attr.index, d⟩
  else
    some ⟨attr.type, attr.index, data⟩

/-- The attribute loop of `parseMeshes`: `streams` is `result.streams`. -/
def parseAttributes {F : Type} [Add F] [Mul F] [Div F] [Zero F] [One F] [BEq F]
    (sqrtf : F → F) (transform : Nat → F) :
    List (cgltf_attribute F) → List (Stream F) → Option (List (Stream F))
  | [], streams => some streams
  | attr :: rest, streams =>
    if attr.type = cgltf_attribute_type.invalid then
      parseAttributes sqrtf transform rest streams
    else
      match parseAttribute sqrtf transform attr with
      | none => none
      | some s => parseAttributes sqrtf transform rest (streams ++ [s])

/-- The body of the primitive loop of `parseMeshes` up to the final test: the
local `result`. -/
def parsePrimitive {F : Type} [Add F] [Mul F] [Div F] [Zero F] [One F] [BEq F]
    (sqrtf : F → F) (transform : Nat → F) (primitive : cgltf_primitive F) :
    Option (Mesh F) :=
  let indices :=
    match primitive.indices with
    | some a => readIndices a
    | none => []
  match parseAttributes sqrtf transform primitive.attributes [] with
  | none => none
  | some streams => some ⟨streams, indices⟩

/-- The primitive loop of `parseMeshes`. -/
def parsePrimitives {F : Type} [Add F] [Mul F] [Div F] [Zero F] [One F] [BEq F]
    (sqrtf : F → F) (transform : Nat → F) :
    List (cgltf_primitive F) → List (Mesh F) → Option (List (Mesh F))
  | [], meshes => some meshes
  | primitive :: rest, meshes =>
    match parsePrimitive sqrtf transform primitive with
    | none => none
    | some result =>
      if result.indices.length ≠ 0 ∧ result.streams.length ≠ 0 then
        parsePrimitives sqrtf transform rest (meshes ++ [result])
      else
        parsePrimitives sqrtf transform rest meshes

/-- The node loop of `parseMeshes`. -/
def parseNodes {F : Type} [Add F] [Mul F] [Div F] [Zero F] [One F] [BEq F]
    (sqrtf : F → F) : List (cgltf_node F) → List (Mesh F) → Option (List (Mesh F))
  | [], meshes => some meshes
  | node :: rest, meshes =>
    match node.mesh with
    | none => parseNodes sqrtf rest meshes
    | some mesh =>
      match parsePrimitives sqrtf node.world mesh.primitives meshes with
      | none => none
      | some meshes1 => parseNodes sqrtf rest meshes1

/-- The function `parseMeshes`: the vector `meshes` after the call, or `none`
when the call runs into undefined behaviour. -/
def parseMeshes {F : Type} [Add F] [Mul F] [Div F] [Zero F] [One F] [BEq F]
    (sqrtf : F → F) (data : cgltf_data F) (meshes : List (Mesh F)) : Option (List (Mesh F)) :=
  parseNodes sqrtf data.nodes meshes

/-! ## The extractor in closed form

The definitions of this section say what the extractor is meant to produce,
in the words of the specification; the theorems below show that the loops of
`parseMeshes` compute them. -/

/-- The record that `transformNormal` is specified to leave: the linear part
applied to the first three components, scaled by the inverse of the length, or
by zero when the length is zero. -/
def normalOf {F : Type} [Add F] [Mul F] [Div F] [Zero F] [One F] [BEq F]
    (sqrtf : F → F) (ptr : Attr F) (transform : Nat → F) : Attr F :=
  let x := ptr.f0 * transform 0 + ptr.f1 * transform 4 + ptr.f2 * transform 8
  let y := ptr.f0 * transform 1 + ptr.f1 * transform 5 + ptr.f2 * transform 9
  let z := ptr.f0 * transform 2 + ptr.f1 * transform 6 + ptr.f2 * transform 10
  let l := sqrtf (x * x + y * y + z * z)
  let s := if l == 0 then 0 else 1 / l
  { f0 := x * s, f1 := y * s, f2 := z * s, f3 := ptr.f3 }

/-- The stream specified for an attribute: its semantic and set index, and
the decoded records, transformed for a position, normal or tangent channel. -/
def streamOf {F : Type} [Add F] [Mul F] [Div F] [Zero F] [One F] [BEq F]
    (sqrtf : F → F) (transform : Nat → F) (attr : cgltf_attribute F) : Stream F :=
  { type := attr.type
    index := attr.index
    data :=
      if attr.type = cgltf_attribute_type.position then
        (readFloats attr.data).map (fun a => transformPosition a transform)
      else if attr.type = cgltf_attribute_type.normal
          ∨ attr.type = cgltf_attribute_type.tangent then
        (readFloats attr.data).map (fun a => normalOf sqrtf a transform)
      else
        readFloats attr.data }

/-- The attributes of a primitive whose semantic is not invalid, in order. -/
def validAttributes {F : Type} (primitive : cgltf_primitive F) : List (cgltf_attribute F) :=
  primitive.attributes.filter (fun attr => decide (attr.type ≠ cgltf_attribute_type.invalid))

/-- The mesh specified for a primitive: one stream for each attribute with a
valid semantic, in attribute order, and the decoded indices. -/
def meshOf {F : Type} [Add F] [Mul F] [Div F] [Zero F] [One F] [BEq F]
    (sqrtf : F → F) (transform : Nat → F) (primitive : cgltf_primitive F) : Mesh F :=
  { streams := (validAttributes primitive).map (streamOf sqrtf transform)
    indices :=
      match primitive.indices with
      | some a => readIndices a
      | none => [] }

/-- A mesh is kept when it has at least one index and at least one stream. -/
def kept {F : Type} (m : Mesh F) : Bool :=
  decide (m.indices.length ≠ 0 ∧ m.streams.length ≠ 0)

/-- The meshes specified for a node: none without a mesh, else the kept meshes
of the primitives, in primitive order. -/
def meshesOfNode {F : Type} [Add F] [Mul F] [Div F] [Zero F] [One F] [BEq F]
    (sqrtf : F → F) (node : cgltf_node F) : List (Mesh F) :=
  match node.mesh with
  | none => []
  | some mesh => (mesh.primitives.map (meshOf sqrtf node.world)).filter kept

/-- The meshes specified for a document: those of its nodes, in node order. -/
def extracted {F : Type} [Add F] [Mul F] [Div F] [Zero F] [One F] [BEq F]
    (sqrtf : F → F) (data : cgltf_data F) : List (Mesh F) :=
  (data.nodes.map (meshesOfNode sqrtf)).flatten

/-- The vector that the linear part of a transform, its upper left 3 by 3
block, makes of the first three components of a record; the translation
entries 12 to 14 play no part. -/
def linearPart {F : Type} [Add F] [Mul F] (ptr : Attr F) (transform : Nat → F) : F × F × F :=
  (ptr.f0 * transform 0 + ptr.f1 * transform 4 + ptr.f2 * transform 8,
    ptr.f0 * transform 1 + ptr.f1 * transform 5 + ptr.f2 * transform 9,
    ptr.f0 * transform 2 + ptr.f1 * transform 6 + ptr.f2 * transform 10)

/-- The length of a vector, as the code computes it. -/
def vecLength {F : Type} [Add F] [Mul F] (sqrtf : F → F) (v : F × F × F) : F :=
  sqrtf (v.1 * v.1 + v.2.1 * v.2.1 + v.2.2 * v.2.2)

/-- A transform with the identity as linear part and the translation
`(tx, ty, tz)`. -/
def IsTranslation {F : Type} [Zero F] [One F] (transform : Nat → F) (tx ty tz : F) : Prop :=
  transform 0 = 1 ∧ transform 1 = 0 ∧ transform 2 = 0 ∧
  transform 4 = 0 ∧ transform 5 = 1 ∧ transform 6 = 0 ∧
  transform 8 = 0 ∧ transform 9 = 0 ∧ transform 10 = 1 ∧
  transform 12 = tx ∧ transform 13 = ty ∧ transform 14 = tz

/-- The matrix of a translation, column-major; the identity for `0 0 0`. -/
def translation (tx ty tz : ℚ) : Nat → ℚ := fun i =>
  if i = 0 ∨ i = 5 ∨ i = 10 ∨ i = 15 then 1
  else if i = 12 then tx else if i = 13 then ty else if i = 14 then tz else 0

/-- A square root on the rationals, exact on the squares of rationals: the
stand-in for `sqrtf` where a theorem is evaluated on numbers. -/
def sqrtQ (q : ℚ) : ℚ := (Nat.sqrt q.num.toNat : ℚ) / (Nat.sqrt q.den : ℚ)

/-! ## Sample documents -/

/-- An index accessor with the three indices 0, 1, 2. -/
def threeIndices : cgltf_accessor ℚ :=
  { count := 3, read_index := fun i => i, read_float := fun _ out => out }

/-- An accessor of `n` three-component elements `(i, 2 i, 1)`; the fourth
component of a record is left as it was. -/
def vec3Accessor (n : Nat) : cgltf_accessor ℚ :=
  { count := n
    read_index := fun _ => 0
    read_float := fun i out => ⟨(i : ℚ), 2 * (i : ℚ), 1, out.f3⟩ }

/-- A primitive with 3 indices and one position attribute of 3 vertices. -/
def trianglePrimitive : cgltf_primitive ℚ :=
  { indices := some threeIndices
    attributes := [⟨cgltf_attribute_type.position, 0, vec3Accessor 3⟩] }

/-- A document of one node at the identity transform whose mesh has the one
primitive `trianglePrimitive`. -/
def triangleData : cgltf_data ℚ :=
  { nodes := [⟨some ⟨[trianglePrimitive]⟩, translation 0 0 0⟩] }

/-- A document of three nodes: the triangle mesh under the translation by
`(1, 0, 0)`, a node without mesh, and the same mesh under the identity. -/
def sharedMeshData : cgltf_data ℚ :=
  { nodes := [⟨some ⟨[trianglePrimitive]⟩, translation 1 0 0⟩, ⟨none, translation 5 5 5⟩,
      ⟨some ⟨[trianglePrimitive]⟩, translation 0 0 0⟩] }

/-! ## The type `float`

On the targets of the tool a `float` is an IEEE 754 binary32 number, and `+`,
`*`, `/` and `sqrtf` give the exact result rounded to the nearest float, ties
to even. The model below keeps the numeric value only: the two zeros, which
compare equal, are one value, and so are all NaNs. It serves to evaluate the
extractor on floats; the definitions of the extractor do not depend on it. -/

/-- A binary32 datum unpacked: the finite number `(-1)^neg * m * 2^e`, an
infinity, or a NaN. -/
inductive Binary32 where
  | fin (neg : Bool) (m : Nat) (e : Int)
  | inf (neg : Bool)
  | nan
deriving DecidableEq, Repr

namespace Binary32

/-- The number of binary digits of `n`, by halving at most `fuel` times. -/
def bitLenAux : Nat → Nat → Nat
  | 0, _ => 0
  | fuel + 1, n => if n = 0 then 0 else bitLenAux fuel (n / 2) + 1

/-- The number of binary digits of `n`; zero for zero. -/
def bitLen (n : Nat) : Nat := bitLenAux n n

/-- The datum of a float: a significand below `2^24` with an exponent from
-149 to 104, the significand at least `2^23` unless the exponent is -149, and
no sign on zero. -/
def canonical : Binary32 → Bool
  | fin neg m e =>
    decide (m < 2 ^ 24 ∧ -149 ≤ e ∧ e ≤ 104 ∧ (2 ^ 23 ≤ m ∨ e = -149) ∧ (m = 0 → neg = false))
  | inf _ => true
  | nan => true

/-- The float zero. -/
def zero : Binary32 := fin false 0 (-149)

/-- A rounded significand with its exponent, or the infinity on overflow. -/
def pack (neg : Bool) (m : Nat) (t : Int) : Binary32 :=
  if 104 < t then inf neg else fin neg m t

/-- The float nearest to `(-1)^neg * M * 2^ex`, ties to even: the exponent `t`
of the result leaves 24 significant bits, or is -149 in the subnormal range. -/
def round (neg : Bool) (M : Nat) (ex : Int) : Binary32 :=
  if M = 0 then zero
  else
    let n : Int := (bitLen M : Nat)
    let t : Int := max (ex + n - 24) (-149)
    if t ≤ ex then
      pack neg (M * 2 ^ (ex - t).toNat) t
    else
      let s := (t - ex).toNat
      let q := M / 2 ^ s
      let r := M % 2 ^ s
      let half := 2 ^ (s - 1)
      let q1 := if half < r ∨ (r = half ∧ q % 2 = 1) then q + 1 else q
      if q1 = 0 then zero
      else if q1 = 2 ^ 24 then pack neg (2 ^ 23) (t + 1)
      else pack neg q1 t

/-- The integer square root of `n` by bisection on `k` binary digits. -/
def isqrtAux (n : Nat) : Nat → Nat → Nat
  | 0, r => r
  | k + 1, r =>
    if (r + 2 ^ k) * (r + 2 ^ k) ≤ n then isqrtAux n k (r + 2 ^ k) else isqrtAux n k r

/-- The integer square root of `n`, rounded down. -/
def isqrt (n : Nat) : Nat := isqrtAux n (bitLen n / 2 + 1) 0

/-- The product of two floats. -/
def mul : Binary32 → Binary32 → Binary32
  | nan, _ => nan
  | _, nan => nan
  | inf s1, inf s2 => inf (xor s1 s2)
  | inf s1, fin s2 m _ => if m = 0 then nan else inf (xor s1 s2)
  | fin s1 m _, inf s2 => if m = 0 then nan else inf (xor s1 s2)
  | fin s1 m1 e1, fin s2 m2 e2 => round (xor s1 s2) (m1 * m2) (e1 + e2)

/-- The sum of two floats. -/
def add : Binary32 → Binary32 → Binary32
  | nan, _ => nan
  | _, nan => nan
  | inf s1, inf s2 => if s1 = s2 then inf s1 else nan
  | inf s1, fin _ _ _ => inf s1
  | fin _ _ _, inf s2 => inf s2
  | fin s1 m1 e1, fin s2 m2 e2 =>
    let e := min e1 e2
    let v1 : Int := (if s1 then -1 else 1) * ((m1 * 2 ^ (e1 - e).toNat : Nat) : Int)
    let v2 : Int := (if s2 then -1 else 1) * ((m2 * 2 ^ (e2 - e).toNat : Nat) : Int)
    round (decide (v1 + v2 < 0)) (v1 + v2).natAbs e

/-- The quotient of two floats for a divisor other than zero: 64 more bits of
the quotient and a sticky bit for the remainder are rounded. -/
def div : Binary32 → Binary32 → Binary32
  | nan, _ => nan
  | _, nan => nan
  | inf _, inf _ => nan
  | inf s1, fin s2 _ _ => inf (xor s1 s2)
  | fin _ _ _, inf _ => zero
  | fin s1 m1 e1, fin s2 m2 e2 =>
    if m2 = 0 then (if m1 = 0 then nan else inf s1)
    else
      let q := m1 * 2 ^ 64 / m2
      let r := m1 * 2 ^ 64 % m2
      round (xor s1 s2) (2 * q + (if r = 0 then 0 else 1)) (e1 - e2 - 65)

/-- The function `sqrtf`: the root of the significand scaled to an even
exponent, with a sticky bit for an inexact root, is rounded. -/
def sqrtf : Binary32 → Binary32
  | nan => nan
  | inf s => if s then nan else inf false
  | fin s m e =>
    if m = 0 then zero
    else if s then nan
    else
      let sh : Nat := if (e - 64) % 2 = 0 then 64 else 65
      let n := m * 2 ^ sh
      let r := isqrt n
      round false (2 * r + (if r * r = n then 0 else 1)) ((e - sh) / 2 - 1)

/-- The comparison `==` of two floats: a NaN equals nothing. -/
def beq : Binary32 → Binary32 → Bool
  | nan, _ => false
  | _, nan => false
  | a, b => decide (a = b)

end Binary32

/-- A value of the type `float`: a canonical binary32 datum. -/
structure Float32 where
  /-- The datum. -/
  val : Binary32
  /-- The datum is canonical. -/
  ok : val.canonical = true
deriving DecidableEq, Repr

namespace Float32

/-- The float with the datum `x`. The operations below produce canonical data
only, so the second branch is not taken by them. -/
def ofBinary32 (x : Binary32) : Float32 :=
  if h : x.canonical = true then ⟨x, h⟩ else ⟨Binary32.nan, rfl⟩

/-- The float nearest to `n * 2^e`. -/
def scaled (n : Int) (e : Int) : Float32 :=
  ofBinary32 (Binary32.round (decide (n < 0)) n.natAbs e)

/-- The float nearest to the integer `n`. -/
def ofInt (n : Int) : Float32 := scaled n 0

/-- The positive infinity. -/
def infinity : Float32 := ⟨Binary32.inf false, rfl⟩

/-- The NaN. -/
def nan : Float32 := ⟨Binary32.nan, rfl⟩

/-- The function `sqrtf` on floats. -/
def sqrtf (a : Float32) : Float32 := ofBinary32 (Binary32.sqrtf a.val)

instance : Add Float32 := ⟨fun a b => ofBinary32 (Binary32.add a.val b.val)⟩
instance : Mul Float32 := ⟨fun a b => ofBinary32 (Binary32.mul a.val b.val)⟩
instance : Div Float32 := ⟨fun a b => ofBinary32 (Binary32.div a.val b.val)⟩
instance : Zero Float32 := ⟨⟨Binary32.zero, rfl⟩⟩
instance : One Float32 := ⟨⟨Binary32.fin false (2 ^ 23) (-23), by decide⟩⟩
instance : BEq Float32 := ⟨fun a b => Binary32.beq a.val b.val⟩

end Float32

/-! ## The extractor on floats, in the words of the specification

The definitions of this section say what the streams of a mesh hold under a
translation and under a uniform scale, in terms of the records decoded by
`cgltf_accessor_read_float` and of the float operations; the theorems below
show that `parseMeshes` computes them. -/

/-- The laws of float arithmetic that the theorems on values rely on. Each
holds for the floats of the target, with the two zeros taken as one value: one
is neutral for `*`, zero is neutral for `+`, and a vector whose length as the
code computes it compares equal to zero has no infinite or NaN component, so
each component times zero is zero. -/
structure FloatLaws (F : Type) [Add F] [Mul F] [Div F] [Zero F] [One F] [BEq F]
    (sqrtf : F → F) : Prop where
  /-- Multiplying by one changes nothing. -/
  mul_one : ∀ a : F, a * 1 = a
  /-- Adding zero changes nothing. -/
  add_zero : ∀ a : F, a + 0 = a
  /-- Adding to zero changes nothing. -/
  zero_add : ∀ a : F, 0 + a = a
  /-- Zero times zero is zero. -/
  zero_mul_zero : (0 : F) * 0 = 0
  /-- One divided by one is one. -/
  one_div_one : (1 : F) / 1 = 1
  /-- One does not compare equal to zero. -/
  one_beq_zero : ((1 : F) == 0) = false
  /-- Zero compares equal to zero. -/
  zero_beq_zero : ((0 : F) == 0) = true
  /-- The square root of zero is zero. -/
  sqrtf_zero : sqrtf 0 = 0
  /-- The components of a vector of computed length zero are finite. -/
  mul_zero_of_length_zero : ∀ a b c : F,
    (sqrtf (a * a + b * b + c * c) == 0) = true → a * 0 = 0 ∧ b * 0 = 0 ∧ c * 0 = 0

/-- The first three components of a record are finite: each of them times
zero is zero, which an infinity and a NaN fail. -/
def finiteXYZ {F : Type} [Mul F] [Zero F] (a : Attr F) : Prop :=
  a.f0 * 0 = 0 ∧ a.f1 * 0 = 0 ∧ a.f2 * 0 = 0

instance {F : Type} [Mul F] [Zero F] [DecidableEq F] (a : Attr F) : Decidable (finiteXYZ a) :=
  inferInstanceAs (Decidable (a.f0 * 0 = 0 ∧ a.f1 * 0 = 0 ∧ a.f2 * 0 = 0))

/-- The record with its first three components multiplied by the reciprocal
`1 / l` of their length `l = sqrtf (x * x + y * y + z * z)`, or by zero when
`l` compares equal to zero. -/
def renormalized {F : Type} [Add F] [Mul F] [Div F] [Zero F] [One F] [BEq F]
    (sqrtf : F → F) (a : Attr F) : Attr F :=
  let l := sqrtf (a.f0 * a.f0 + a.f1 * a.f1 + a.f2 * a.f2)
  let s := if l == 0 then 0 else 1 / l
  ⟨a.f0 * s, a.f1 * s, a.f2 * s, a.f3⟩

/-- The record of a stream under a translation by `(tx, ty, tz)`, from the
decoded record `a`: offset for a position, renormalized for a normal or a
tangent, and `a` itself for any other semantic. -/
def translatedRecord {F : Type} [Add F] [Mul F] [Div F] [Zero F] [One F] [BEq F]
    (sqrtf : F → F) (tx ty tz : F) (type : cgltf_attribute_type) (a : Attr F) : Attr F :=
  if type = cgltf_attribute_type.position then ⟨a.f0 + tx, a.f1 + ty, a.f2 + tz, a.f3⟩
  else if type = cgltf_attribute_type.normal ∨ type = cgltf_attribute_type.tangent then
    renormalized sqrtf a
  else a

/-- The mesh of a primitive whose streams hold, for each attribute with a valid
semantic in attribute order, the records `record type a` of the elements `a`
that `cgltf_accessor_read_float` decodes over a zeroed record, and whose
indices are the decoded indices as `unsigned int`. -/
def meshWith {F : Type} [Zero F] (record : cgltf_attribute_type → Attr F → Attr F)
    (primitive : cgltf_primitive F) : Mesh F :=
  { streams := (validAttributes primitive).map (fun attr =>
      ⟨attr.type, attr.index,
        (List.range attr.data.count).map
          (fun i => record attr.type (attr.data.read_float i ⟨0, 0, 0, 0⟩))⟩)
    indices :=
      match primitive.indices with
      | some a => (List.range a.count).map (fun i => a.read_index i % 2 ^ 32)
      | none => [] }

/-- The matrix of a translation over any arithmetic, column-major. -/
def translationOf {F : Type} [Zero F] [One F] (tx ty tz : F) : Nat → F := fun i =>
  if i = 0 ∨ i = 5 ∨ i = 10 ∨ i = 15 then 1
  else if i = 12 then tx else if i = 13 then ty else if i = 14 then tz else 0

/-- An accessor of four-component elements, the given records. -/
def listAccessor {F : Type} (records : List (Attr F)) : cgltf_accessor F :=
  { count := records.length
    read_index := fun _ => 0
    read_float := fun i out => records.getD i out }

/-- An accessor of two-component elements, the given pairs: decoding leaves
the last two components of the record as they were. -/
def pairAccessor {F : Type} (pairs : List (F × F)) : cgltf_accessor F :=
  { count := pairs.length
    read_index := fun _ => 0
    read_float := fun i out =>
      match pairs[i]? with
      | some p => ⟨p.1, p.2, out.f2, out.f3⟩
      | none => out }

/-- An index accessor that decodes the given indices. -/
def indexAccessor {F : Type} (indices : List Nat) : cgltf_accessor F :=
  { count := indices.length
    read_index := fun i => indices.getD i 0
    read_float := fun _ out => out }

/-- A primitive with the indices 2, 0, 1 and 3 vertices: positions, an
attribute of unknown semantic with one element, texture coordinates of set 1
with two components, and normals, the second of length 5 and the third
zero. -/
def texturedPrimitive : cgltf_primitive Float32 :=
  { indices := some (indexAccessor [2, 0, 1])
    attributes :=
      [⟨cgltf_attribute_type.position, 0,
          listAccessor [⟨0, 0, 0, 0⟩, ⟨1, Float32.scaled 1 (-1), Float32.ofInt (-3), 0⟩,
            ⟨Float32.ofInt 16777216, 0, 0, 0⟩]⟩,
        ⟨cgltf_attribute_type.invalid, 0, listAccessor [⟨1, 1, 1, 1⟩]⟩,
        ⟨cgltf_attribute_type.texcoord, 1,
          pairAccessor [(Float32.scaled 1 (-1), Float32.scaled 1 (-2)), (0, 1), (1, 0)]⟩,
        ⟨cgltf_attribute_type.normal, 0,
          listAccessor [⟨0, 0, 1, 0⟩, ⟨Float32.ofInt 3, 0, Float32.ofInt 4, 0⟩,
            ⟨0, 0, 0, 0⟩]⟩] }

/-- A primitive with the indices 0, 1 and 2 vertices: positions and tangents
with the handedness in the fourth component. -/
def linePrimitive : cgltf_primitive Float32 :=
  { indices := some (indexAccessor [0, 1])
    attributes :=
      [⟨cgltf_attribute_type.position, 0,
          listAccessor [⟨1, 1, 1, 0⟩, ⟨Float32.ofInt (-1), 0, Float32.ofInt 2, 0⟩]⟩,
        ⟨cgltf_attribute_type.tangent, 0,
          listAccessor [⟨0, Float32.ofInt 2, 0, Float32.ofInt (-1)⟩, ⟨1, 0, 0, 1⟩]⟩] }

/-- A mesh of the two sample primitives. -/
def sampleMesh : cgltf_mesh Float32 := ⟨[texturedPrimitive, linePrimitive]⟩

/-- A document of one node with a mesh of one primitive that has the indices
0, 1, 2 and one attribute with the given semantic and records. -/
def oneStreamData (world : Nat → Float32) (type : cgltf_attribute_type)
    (records : List (Attr Float32)) : cgltf_data Float32 :=
  { nodes := [⟨some ⟨[⟨some (indexAccessor [0, 1, 2]), [⟨type, 0, listAccessor records⟩]⟩]⟩,
      world⟩] }

/-! ## Lemmas on the library functions -/

theorem strrchr_eq_none {s : Bytes} {c : Nat} (h : c ∉ s) : strrchr s c = none := by
  induction s with
  | nil => rfl
  | cons x xs ih =>
    have hx : ¬ x = c := fun e => h (by simp [e])
    have hxs : c ∉ xs := fun m => h (List.mem_cons_of_mem _ m)
    simp [strrchr, ih hxs, hx]

theorem strrchr_append (pre e : Bytes) (c : Nat) (h : c ∉ e) :
    strrchr (pre ++ c :: e) c = some (c :: e) := by
  induction pre with
  | nil => simp [strrchr, strrchr_eq_none h]
  | cons x xs ih => simp [strrchr, ih]

theorem not_mem_of_strrchr_eq_none {s : Bytes} {c : Nat} (h : strrchr s c = none) :
    c ∉ s := by
  induction s with
  | nil => simp
  | cons x xs ih =>
    simp only [strrchr] at h
    cases hr : strrchr xs c with
    | some r => rw [hr] at h; simp at h
    | none =>
      rw [hr] at h
      by_cases hxc : x = c
      · simp [hxc] at h
      · intro hm
        rcases List.mem_cons.mp hm with h1 | h1
        · exact hxc h1.symm
        · exact ih hr h1

theorem strrchr_eq_some {s ext : Bytes} {c : Nat} (h : strrchr s c = some ext) :
    ∃ pre e, s = pre ++ ext ∧ ext = c :: e ∧ c ∉ e := by
  induction s generalizing ext with
  | nil => simp [strrchr] at h
  | cons x xs ih =>
    simp only [strrchr] at h
    cases hr : strrchr xs c with
    | some r =>
      rw [hr] at h
      have hre : r = ext := by simpa using h
      subst hre
      obtain ⟨pre, e, h1, h2, h3⟩ := ih hr
      exact ⟨x :: pre, e, by rw [h1]; rfl, h2, h3⟩
    | none =>
      rw [hr] at h
      by_cases hxc : x = c
      · simp only [hxc, if_true, Option.some.injEq] at h
        exact ⟨[], xs, by simp [← h, hxc], by simp [← h], not_mem_of_strrchr_eq_none hr⟩
      · simp [hxc] at h

/-- The guard of a branch holds exactly when the path ends in one of the two
spellings, for spellings that are a dot followed by dot-free text. -/
theorem extIs_iff (output a b : Bytes) (ha : 46 ∉ a) (hb : 46 ∉ b) :
    extIs (strrchr output 46) (46 :: a) (46 :: b) = true ↔
      (46 :: a) <:+ output ∨ (46 :: b) <:+ output := by
  constructor
  · intro h
    cases hs : strrchr output 46 with
    | none => simp [extIs, hs] at h
    | some ext =>
      obtain ⟨pre, e, h1, -, -⟩ := strrchr_eq_some hs
      simp only [extIs, hs, strcmp_eq, Bool.or_eq_true, beq_iff_eq] at h
      rcases h with h | h
      · left; exact ⟨pre, by rw [h1, h]⟩
      · right; exact ⟨pre, by rw [h1, h]⟩
  · rintro (⟨pre, rfl⟩ | ⟨pre, rfl⟩)
    · simp [extIs, strrchr_append pre a 46 ha, strcmp_eq]
    · simp [extIs, strrchr_append pre b 46 hb, strcmp_eq]

theorem strrchr_of_suffix (output e : Bytes) (he : 46 ∉ e) (h : (46 :: e) <:+ output) :
    strrchr output 46 = some (46 :: e) := by
  obtain ⟨pre, rfl⟩ := h
  exact strrchr_append pre e 46 he

/-! ## Which branch of the writer runs -/

theorem main_gltf (canOpen : Bytes → Bool) (output json bin : Bytes)
    (h : ascii ".gltf" <:+ output ∨ ascii ".GLTF" <:+ output) :
    main canOpen output json bin = writeSplit canOpen output json bin := by
  have hg := (extIs_iff output [103, 108, 116, 102] [71, 76, 84, 70]
    (by decide) (by decide)).mpr h
  have hg2 : extIs (strrchr output 46) (ascii ".gltf") (ascii ".GLTF") = true := hg
  simp [main, hg2]

theorem main_glb (canOpen : Bytes → Bool) (output json bin : Bytes)
    (h : ascii ".glb" <:+ output ∨ ascii ".GLB" <:+ output) :
    main canOpen output json bin = writeBinary canOpen output json bin := by
  have hs : strrchr output 46 = some (ascii ".glb") ∨ strrchr output 46 = some (ascii ".GLB") := by
    rcases h with h | h
    · exact Or.inl (strrchr_of_suffix output [103, 108, 98] (by decide) h)
    · exact Or.inr (strrchr_of_suffix output [71, 76, 66] (by decide) h)
  rcases hs with hs | hs
  · have h1 : extIs (some (ascii ".glb")) (ascii ".gltf") (ascii ".GLTF") = false := by decide
    have h2 : extIs (some (ascii ".glb")) (ascii ".glb") (ascii ".GLB") = true := by decide
    simp [main, hs, h1, h2]
  · have h1 : extIs (some (ascii ".GLB")) (ascii ".gltf") (ascii ".GLTF") = false := by decide
    have h2 : extIs (some (ascii ".GLB")) (ascii ".glb") (ascii ".GLB") = true := by decide
    simp [main, hs, h1, h2]

theorem main_other (canOpen : Bytes → Bool) (output json bin : Bytes)
    (h1 : ¬ ascii ".gltf" <:+ output) (h2 : ¬ ascii ".GLTF" <:+ output)
    (h3 : ¬ ascii ".glb" <:+ output) (h4 : ¬ ascii ".GLB" <:+ output) :
    main canOpen output json bin = writeUnknown := by
  have hg : ¬ extIs (strrchr output 46) (ascii ".gltf") (ascii ".GLTF") = true := by
    intro hg
    rcases (extIs_iff output [103, 108, 116, 102] [71, 76, 84, 70]
      (by decide) (by decide)).mp hg with h | h
    · exact h1 h
    · exact h2 h
  have hb : ¬ extIs (strrchr output 46) (ascii ".glb") (ascii ".GLB") = true := by
    intro hb
    rcases (extIs_iff output [103, 108, 98] [71, 76, 66] (by decide) (by decide)).mp hb with h | h
    · exact h3 h
    · exact h4 h
  simp [main, hg, hb]

/-! ## The split branch -/

theorem binpath_of_suffix (output e : Bytes) (he : e.length = 5) (h : e <:+ output) :
    binpath output = output.take (output.length - 5) ++ ascii ".bin" ∧
      output = output.take (output.length - 5) ++ e := by
  obtain ⟨pre, rfl⟩ := h
  have hl : (pre ++ e).length - 5 = pre.length := by simp [he]
  have ht : (pre ++ e).take pre.length = pre := by simp
  have hd : (pre ++ e).drop (pre.length + 5) = [] := by simp [he]
  refine ⟨?_, ?_⟩
  · simp only [binpath, replace, hl, ht, hd, List.append_nil]
  · rw [hl, ht]

theorem find_last_of_eq_none {s set : Bytes} (h : ∀ x ∈ s, x ∉ set) :
    find_last_of s set = none := by
  induction s with
  | nil => rfl
  | cons x xs ih =>
    have hx : x ∉ set := h x (by simp)
    have hxs : ∀ y ∈ xs, y ∉ set := fun y hy => h y (List.mem_cons_of_mem _ hy)
    simp [find_last_of, ih hxs, hx]

/-! ## The binary branch -/

theorem fmt_zu_length_le (n : Nat) (h : n < 1000000) : (fmt_zu n).length ≤ 6 := by
  have := Nat.toDigitsCore_length 10 (by decide) (n + 1) n 6 (by simpa using h) (by decide)
  simpa [fmt_zu, Nat.toDigits] using this

theorem glbBufferSpec_length (n : Nat) : (glbBufferSpec n).length = 25 + (fmt_zu n).length := by
  have h1 : (ascii "\x7bbuffers:[\x7bbyteLength:").length = 22 := by decide
  have h2 : (ascii "\x7d],").length = 3 := by decide
  simp only [glbBufferSpec, List.length_append, h1, h2]
  omega

theorem sprintf_glbBufferSpec (n : Nat) (h : n < 1000000) :
    sprintf 32 (glbBufferSpec n) = some (glbBufferSpec n) := by
  have h1 := glbBufferSpec_length n
  have h2 := fmt_zu_length_le n h
  simp only [sprintf]
  rw [if_pos (by omega)]

theorem toDigitsCore_length_ge_acc (f n : Nat) (ds : List Char) :
    ds.length ≤ (Nat.toDigitsCore 10 f n ds).length := by
  induction f generalizing n ds with
  | zero => simp [Nat.toDigitsCore]
  | succ f ih =>
    simp only [Nat.toDigitsCore]
    split
    · simp
    · exact Nat.le_trans (by simp) (ih _ _)

/-- A number of at least `10 ^ e` prints with more than `e` digits. -/
theorem toDigitsCore_length_ge (f n e : Nat) (ds : List Char) (hn : 10 ^ e ≤ n)
    (hf : e < f) : e + 1 + ds.length ≤ (Nat.toDigitsCore 10 f n ds).length := by
  induction f generalizing n e ds with
  | zero => omega
  | succ f ih =>
    simp only [Nat.toDigitsCore]
    cases e with
    | zero =>
      split
      · simp
        omega
      · have := toDigitsCore_length_ge_acc f (n / 10) (Nat.digitChar (n % 10) :: ds)
        simp only [List.length_cons] at this
        omega
    | succ e =>
      have h10 : 10 ^ e ≤ n / 10 := by
        rw [Nat.le_div_iff_mul_le (by decide)]
        rw [pow_succ] at hn
        exact hn
      have hpos : 0 < 10 ^ e := Nat.pow_pos (by decide)
      have hne : ¬ n / 10 = 0 := by omega
      rw [if_neg hne]
      have := ih (n / 10) e (Nat.digitChar (n % 10) :: ds) h10 (by omega)
      simp only [List.length_cons] at this
      omega

theorem fmt_zu_length_ge (n : Nat) (h : 1000000 ≤ n) : 7 ≤ (fmt_zu n).length := by
  have := toDigitsCore_length_ge (n + 1) n 6 [] (by simpa using h) (by omega)
  simpa [fmt_zu, Nat.toDigits] using this

/-- From 1000000 on, the buffer declaration and its NUL do not fit the 32 bytes
of `bufferspec`. -/
theorem sprintf_glbBufferSpec_overflow (n : Nat) (h : 1000000 ≤ n) :
    sprintf 32 (glbBufferSpec n) = none := by
  have h1 := glbBufferSpec_length n
  have h2 := fmt_zu_length_ge n h
  simp only [sprintf]
  rw [if_neg (by omega)]

/-- From 1000000 bytes of blob on, the `json` string of the binary branch is
built from an overflowed array. -/
theorem glbJson_large (json bin : Bytes) (hn : 1000000 ≤ bin.length) :
    glbJson json bin = none := by
  simp only [glbJson, sprintf_glbBufferSpec_overflow bin.length hn]

/-- From 1000000 bytes of blob on, the binary branch has no defined result once
the file is open. -/
theorem writeBinary_large (canOpen : Bytes → Bool) (output json bin : Bytes)
    (hopen : canOpen output = true) (hn : 1000000 ≤ bin.length) :
    writeBinary canOpen output json bin = none := by
  simp [writeBinary, hopen, glbJson_large json bin hn]

/-- Without a path separator in the output path, `binname` is `binpath`. -/
theorem binname_eq_binpath (output : Bytes) (h1 : 47 ∉ output) (h2 : 92 ∉ output) :
    binname output = binpath output := by
  have hnone : find_last_of (binpath output) (ascii "/\\") = none := by
    apply find_last_of_eq_none
    intro x hx
    have hset : ascii "/\\" = [47, 92] := by decide
    have hbin : ascii ".bin" = [46, 98, 105, 110] := by decide
    simp only [binpath, replace, List.mem_append, hbin] at hx
    rw [hset]
    intro hmem
    have hx2 : x = 47 ∨ x = 92 := by simpa using hmem
    rcases hx with (hx | hx) | hx
    · have := List.mem_of_mem_take hx
      rcases hx2 with rfl | rfl
      · exact h1 this
      · exact h2 this
    · rcases hx2 with rfl | rfl <;> simp at hx
    · have := List.mem_of_mem_drop hx
      rcases hx2 with rfl | rfl
      · exact h1 this
      · exact h2 this
  simp only [binname, hnone]

/-- The split branch when both files open. -/
theorem writeSplit_open (canOpen : Bytes → Bool) (output json bin : Bytes)
    (hjson : canOpen output = true) (hbin : canOpen (binpath output) = true) :
    writeSplit canOpen output json bin = some ⟨0, [output, binpath output],
      [(output, splitBufferSpec (binname output) bin.length ++ json ++ ascii "\x7d"),
        (binpath output, bin)]⟩ := by
  simp [writeSplit, hjson, hbin]

/-- The split branch calls `fopen` on the output path and on `binpath`. -/
theorem writeSplit_fopens (canOpen : Bytes → Bool) (output json bin : Bytes) :
    (writeSplit canOpen output json bin).map (fun o => o.fopens)
      = some [output, binpath output] := by
  simp only [writeSplit]
  split <;> rfl

/-- The split branch always returns, having called `fopen` on both paths. -/
theorem writeSplit_some (canOpen : Bytes → Bool) (output json bin : Bytes) :
    ∃ o, writeSplit canOpen output json bin = some o ∧ o.fopens = [output, binpath output] := by
  simp only [writeSplit]
  split
  · exact ⟨_, rfl, rfl⟩
  · exact ⟨_, rfl, rfl⟩

/-- C2, evaluated at failing inputs. For the output path `model.glb` with an
empty body and an empty blob, bytes 12..15 of the file hold the tag 0x4E4F534A
and bytes 16..19 the JSON chunk length 28, and the binary chunk header is the
tag 0x004E4942 at 48..51 followed by the length 0 at 52..55. With the body
`x:1` and the blob `01 02 03 04` the JSON chunk header is again tag then length
32, and the binary chunk header is the tag at 52..55 followed by the length 4
at 56..59. In both chunks the tag is written before the length. -/
theorem C2_glb_tag_written_before_length :
    (∃ file,
      main (fun _ => true) (ascii "model.glb") [] []
        = some ⟨0, [ascii "model.glb"], [(ascii "model.glb", file)]⟩ ∧
      file.length = 56 ∧
      slice file 12 4 = [0x4A, 0x53, 0x4F, 0x4E] ∧
      readU32 file 12 = 0x4E4F534A ∧
      readU32 file 16 = 28 ∧
      slice file 20 28 = ascii "\x7bbuffers:[\x7bbyteLength:0\x7d],\x7d " ∧
      slice file 48 4 = [0x42, 0x49, 0x4E, 0x00] ∧
      readU32 file 52 = 0) ∧
    (∃ file,
      main (fun _ => true) (ascii "model.glb") (ascii "x:1") [1, 2, 3, 4]
        = some ⟨0, [ascii "model.glb"], [(ascii "model.glb", file)]⟩ ∧
      file.length = 64 ∧
      slice file 12 4 = [0x4A, 0x53, 0x4F, 0x4E] ∧
      readU32 file 12 = 0x4E4F534A ∧
      readU32 file 16 = 32 ∧
      slice file 20 32 = ascii "\x7bbuffers:[\x7bbyteLength:4\x7d],x:1\x7d  " ∧
      slice file 52 4 = [0x42, 0x49, 0x4E, 0x00] ∧
      readU32 file 52 = 0x004E4942 ∧
      readU32 file 56 = 4 ∧
      slice file 60 4 = [1, 2, 3, 4]) := by
  refine ⟨⟨_, rfl, ?_, ?_, ?_, ?_, ?_, ?_, ?_⟩, ⟨_, rfl, ?_, ?_, ?_, ?_, ?_, ?_, ?_, ?_, ?_⟩⟩
    <;> decide

/-- C4 as stated fails: for the output path `model.glb`, the body `x:1` and an
empty blob, the total length field of the header is not 12+8+4+8+0 and the JSON
chunk payload is not the body followed by one space. -/
theorem C4_counterexample :
    ∃ file,
      main (fun _ => true) (ascii "model.glb") (ascii "x:1") []
        = some ⟨0, [ascii "model.glb"], [(ascii "model.glb", file)]⟩ ∧
      readU32 file 8 ≠ 12 + 8 + 4 + 8 + 0 ∧
      file.length ≠ 12 + 8 + 4 + 8 + 0 ∧
      slice file 20 4 ≠ ascii "x:1 " := by
  refine ⟨_, rfl, ?_, ?_, ?_⟩ <;> decide

/-- C4 amended: for the output path `model.glb`, the body `x:1` and an empty
blob, the file starts with 67 6C 54 46 02 00 00 00, its total length field is
12+8+32+8+0 = 60, which is the file size, and the JSON chunk is the 26-byte
buffer declaration, the 3-byte body and the closing brace, padded from 30 to 32
bytes with two trailing spaces. -/
theorem C4_glb_scenario_total_length (canOpen : Bytes → Bool)
    (hopen : canOpen (ascii "model.glb") = true) :
    ∃ file,
      main canOpen (ascii "model.glb") (ascii "x:1") []
        = some ⟨0, [ascii "model.glb"], [(ascii "model.glb", file)]⟩ ∧
      file.take 8 = [0x67, 0x6C, 0x54, 0x46, 0x02, 0x00, 0x00, 0x00] ∧
      readU32 file 8 = 12 + 8 + 32 + 8 + 0 ∧
      file.length = 60 ∧
      slice file 20 32 = ascii "\x7bbuffers:[\x7bbyteLength:0\x7d],x:1\x7d  " ∧
      (glbBufferSpec 0).length = 26 ∧
      slice file 20 32 = glbBufferSpec 0 ++ ascii "x:1" ++ ascii "\x7d" ++ [32, 32] := by
  have hj : glbJson (ascii "x:1") []
      = some (ascii "\x7bbuffers:[\x7bbyteLength:0\x7d],x:1\x7d  ") := by decide
  refine ⟨glbBytes (ascii "\x7bbuffers:[\x7bbyteLength:0\x7d],x:1\x7d  ") [], ?_, ?_⟩
  · rw [main_glb _ _ _ _ (Or.inl (by decide))]
    simp only [writeBinary, hopen, hj]
    rfl
  · refine ⟨?_, ?_, ?_, ?_, ?_, ?_⟩ <;> decide

/-- C4 amended, at a file system where every path opens. -/
theorem C4_glb_scenario_total_length_witness :
    ∃ file,
      main (fun _ => true) (ascii "model.glb") (ascii "x:1") []
        = some ⟨0, [ascii "model.glb"], [(ascii "model.glb", file)]⟩ ∧
      file.take 8 = [0x67, 0x6C, 0x54, 0x46, 0x02, 0x00, 0x00, 0x00] ∧
      readU32 file 8 = 12 + 8 + 32 + 8 + 0 ∧
      file.length = 60 ∧
      slice file 20 32 = ascii "\x7bbuffers:[\x7bbyteLength:0\x7d],x:1\x7d  " ∧
      (glbBufferSpec 0).length = 26 ∧
      slice file 20 32 = glbBufferSpec 0 ++ ascii "x:1" ++ ascii "\x7d" ++ [32, 32] :=
  C4_glb_scenario_total_length (fun _ => true) rfl

/-- C5 as stated fails: the extensions of `model.Gltf` and `model.Glb` equal
`.gltf` and `.glb` under ASCII case folding, yet both paths are rejected as an
unknown extension (exit code 4, nothing opened), which is neither the split nor
the binary layout. -/
theorem C5_counterexample :
    (strrchr (ascii "model.Gltf") 46).map (List.map tolower) = some (ascii ".gltf") ∧
      main (fun _ => true) (ascii "model.Gltf") [] [] = some ⟨4, [], []⟩ ∧
      main (fun _ => true) (ascii "model.Gltf") [] []
        ≠ writeSplit (fun _ => true) (ascii "model.Gltf") [] [] ∧
      (strrchr (ascii "model.Glb") 46).map (List.map tolower) = some (ascii ".glb") ∧
      main (fun _ => true) (ascii "model.Glb") [] [] = some ⟨4, [], []⟩ ∧
      main (fun _ => true) (ascii "model.Glb") [] []
        ≠ writeBinary (fun _ => true) (ascii "model.Glb") [] [] := by
  refine ⟨?_, ?_, ?_, ?_, ?_, ?_⟩ <;> decide

/-- C5 amended: layout selection compares the final extension (the text from
the last dot) exactly with two spellings of each name. An extension `.gltf` or
`.GLTF` selects the split branch, `.glb` or `.GLB` the binary branch, and every
other extension, a mixed-case one included, is rejected as unknown with exit
code 4 and no file opened. -/
theorem C5_layout_selected_by_exact_spelling (canOpen : Bytes → Bool)
    (output json bin ext : Bytes) (hext : strrchr output 46 = some ext) :
    ((ext = ascii ".gltf" ∨ ext = ascii ".GLTF") →
        main canOpen output json bin = writeSplit canOpen output json bin) ∧
      ((ext = ascii ".glb" ∨ ext = ascii ".GLB") →
        main canOpen output json bin = writeBinary canOpen output json bin) ∧
      (ext ≠ ascii ".gltf" → ext ≠ ascii ".GLTF" → ext ≠ ascii ".glb" → ext ≠ ascii ".GLB" →
        main canOpen output json bin = some ⟨4, [], []⟩) := by
  obtain ⟨pre, e, h1, -, -⟩ := strrchr_eq_some hext
  have hsuf : ext <:+ output := ⟨pre, h1.symm⟩
  refine ⟨?_, ?_, ?_⟩
  · rintro (h | h)
    · exact main_gltf canOpen output json bin (Or.inl (h ▸ hsuf))
    · exact main_gltf canOpen output json bin (Or.inr (h ▸ hsuf))
  · rintro (h | h)
    · exact main_glb canOpen output json bin (Or.inl (h ▸ hsuf))
    · exact main_glb canOpen output json bin (Or.inr (h ▸ hsuf))
  · intro n1 n2 n3 n4
    simp [main, hext, extIs, strcmp_eq, n1, n2, n3, n4, writeUnknown]

/-- C5 amended, at the paths `a.b/model.GLTF`, `model.glb` and `model.gLTF`. -/
theorem C5_layout_selected_by_exact_spelling_witness :
    strrchr (ascii "a.b/model.GLTF") 46 = some (ascii ".GLTF") ∧
      main (fun _ => true) (ascii "a.b/model.GLTF") (ascii "x:1") [7]
        = writeSplit (fun _ => true) (ascii "a.b/model.GLTF") (ascii "x:1") [7] ∧
      strrchr (ascii "model.glb") 46 = some (ascii ".glb") ∧
      main (fun _ => true) (ascii "model.glb") (ascii "x:1") [7]
        = writeBinary (fun _ => true) (ascii "model.glb") (ascii "x:1") [7] ∧
      strrchr (ascii "model.gLTF") 46 = some (ascii ".gLTF") ∧
      main (fun _ => true) (ascii "model.gLTF") (ascii "x:1") [7] = some ⟨4, [], []⟩ :=
  ⟨by decide,
    (C5_layout_selected_by_exact_spelling (fun _ => true) (ascii "a.b/model.GLTF")
      (ascii "x:1") [7] (ascii ".GLTF") (by decide)).1 (Or.inr rfl),
    by decide,
    (C5_layout_selected_by_exact_spelling (fun _ => true) (ascii "model.glb")
      (ascii "x:1") [7] (ascii ".glb") (by decide)).2.1 (Or.inl rfl),
    by decide,
    (C5_layout_selected_by_exact_spelling (fun _ => true) (ascii "model.gLTF")
      (ascii "x:1") [7] (ascii ".gLTF") (by decide)).2.2
        (by decide) (by decide) (by decide) (by decide)⟩

/-- C6: for every output path whose extension is none of the spellings the
writer accepts for `.gltf` and `.glb`, a path with no dot included, the writer
returns exit code 4, calls `fopen` on nothing and leaves no file. -/
theorem C6_unknown_extension_exit_4_no_file (canOpen : Bytes → Bool)
    (output json bin : Bytes)
    (hext : ∀ ext, strrchr output 46 = some ext →
      ext ≠ ascii ".gltf" ∧ ext ≠ ascii ".GLTF" ∧ ext ≠ ascii ".glb" ∧ ext ≠ ascii ".GLB") :
    ∃ o, main canOpen output json bin = some o ∧
      o.exitCode = 4 ∧ o.fopens = [] ∧ o.files = [] := by
  refine ⟨⟨4, [], []⟩, ?_, rfl, rfl, rfl⟩
  cases hs : strrchr output 46 with
  | none => simp [main, hs, extIs, writeUnknown]
  | some ext =>
    obtain ⟨n1, n2, n3, n4⟩ := hext ext hs
    simp [main, hs, extIs, strcmp_eq, n1, n2, n3, n4, writeUnknown]

/-- C6 at the paths `model.obj` and `model`. -/
theorem C6_unknown_extension_exit_4_no_file_witness :
    (∃ o, main (fun _ => true) (ascii "model.obj") (ascii "x:1") [1, 2] = some o ∧
        o.exitCode = 4 ∧ o.fopens = [] ∧ o.files = []) ∧
      (∃ o, main (fun _ => true) (ascii "model") (ascii "x:1") [1, 2] = some o ∧
        o.exitCode = 4 ∧ o.fopens = [] ∧ o.files = []) :=
  ⟨C6_unknown_extension_exit_4_no_file (fun _ => true) (ascii "model.obj") (ascii "x:1") [1, 2]
      (fun ext h => by
        have hs : strrchr (ascii "model.obj") 46 = some (ascii ".obj") := by decide
        rw [hs] at h
        cases h
        decide),
    C6_unknown_extension_exit_4_no_file (fun _ => true) (ascii "model") (ascii "x:1") [1, 2]
      (fun ext h => by
        have hs : strrchr (ascii "model") 46 = none := by decide
        rw [hs] at h
        cases h)⟩

/-- C7, evaluated at failing inputs: for the output path `dir/model.gltf` the
name embedded as `uri` is `/model.bin`, which contains a `/` and is not the
part of `dir/model.bin` after its last separator; likewise `dir\model.GLTF`
gives a name that starts with the backslash. The erase stops one character
short and keeps the separator. -/
theorem C7_split_uri_keeps_separator :
    binpath (ascii "dir/model.gltf") = ascii "dir/model.bin" ∧
      binname (ascii "dir/model.gltf") = ascii "/model.bin" ∧
      47 ∈ binname (ascii "dir/model.gltf") ∧
      binname (ascii "dir/model.gltf") ≠ ascii "model.bin" ∧
      binname (ascii "dir\\model.GLTF") = ascii "\\model.bin" ∧
      92 ∈ binname (ascii "dir\\model.GLTF") ∧
      main (fun _ => true) (ascii "dir/model.gltf") [] []
        = some ⟨0, [ascii "dir/model.gltf", ascii "dir/model.bin"],
            [(ascii "dir/model.gltf",
                ascii "\x7bbuffers:[\x7buri:\"/model.bin\",byteLength:0\x7d],\x7d"),
              (ascii "dir/model.bin", [])]⟩ := by
  refine ⟨?_, ?_, ?_, ?_, ?_, ?_, ?_⟩ <;> decide

/-- C8: for every output path ending in `.gltf` or `.GLTF` the writer opens, as
the sibling binary file, the path made of the output path without its last 5
characters followed by `.bin`; that path is one character shorter than the
output path and agrees with it on everything before the extension, and the 5
characters replaced are exactly the extension. -/
theorem C8_split_sibling_path (canOpen : Bytes → Bool) (output json bin : Bytes)
    (hext : ascii ".gltf" <:+ output ∨ ascii ".GLTF" <:+ output) :
    (main canOpen output json bin).map (fun o => o.fopens)
        = some [output, binpath output] ∧
      binpath output = output.take (output.length - 5) ++ ascii ".bin" ∧
      (binpath output).length = output.length - 1 ∧
      5 ≤ output.length ∧
      (binpath output).take (output.length - 5) = output.take (output.length - 5) ∧
      (output.drop (output.length - 5) = ascii ".gltf" ∨
        output.drop (output.length - 5) = ascii ".GLTF") := by
  have hbin : (ascii ".bin").length = 4 := by decide
  have key : ∀ e : Bytes, e.length = 5 → e <:+ output →
      binpath output = output.take (output.length - 5) ++ ascii ".bin" ∧
        (binpath output).length = output.length - 1 ∧ 5 ≤ output.length ∧
        (binpath output).take (output.length - 5) = output.take (output.length - 5) ∧
        output.drop (output.length - 5) = e := by
    intro e he hs
    obtain ⟨hb, ho⟩ := binpath_of_suffix output e he hs
    have h5 : 5 ≤ output.length := by
      have := congrArg List.length ho
      rw [List.length_append, he] at this
      omega
    have hlen : (output.take (output.length - 5)).length = output.length - 5 := by
      rw [List.length_take]
      omega
    refine ⟨hb, ?_, h5, ?_, ?_⟩
    · rw [hb, List.length_append, hlen, hbin]
      omega
    · rw [hb]
      exact (List.take_left' hlen)
    · have hd : (output.take (output.length - 5) ++ e).drop (output.length - 5) = e :=
        List.drop_left' hlen
      rw [← ho] at hd
      exact hd
  refine ⟨?_, ?_⟩
  · rw [main_gltf canOpen output json bin hext]
    exact writeSplit_fopens canOpen output json bin
  · rcases hext with h | h
    · obtain ⟨a, b, c, d, e⟩ := key _ (by decide) h
      exact ⟨a, b, c, d, Or.inl e⟩
    · obtain ⟨a, b, c, d, e⟩ := key _ (by decide) h
      exact ⟨a, b, c, d, Or.inr e⟩

/-- C8 at the path `out/scene.v2.GLTF`, where no file opens. -/
theorem C8_split_sibling_path_witness :
    ascii ".GLTF" <:+ ascii "out/scene.v2.GLTF" ∧
      (main (fun _ => false) (ascii "out/scene.v2.GLTF") [] []).map (fun o => o.fopens)
        = some [ascii "out/scene.v2.GLTF", ascii "out/scene.v2.bin"] :=
  ⟨by decide,
    (C8_split_sibling_path (fun _ => false) (ascii "out/scene.v2.GLTF") [] []
      (Or.inr (by decide))).1⟩

/-- C9 as stated fails: for the output path `a.gltf` the sibling path opened
is `a.bin`, while replacing the last 4 characters by `.bin` would give
`a..bin`. -/
theorem C9_counterexample :
    (main (fun _ => true) (ascii "a.gltf") [] []).map (fun o => o.fopens)
        = some [ascii "a.gltf", ascii "a.bin"] ∧
      (ascii "a.gltf").take ((ascii "a.gltf").length - 4) ++ ascii ".bin" = ascii "a..bin" ∧
      binpath (ascii "a.gltf")
        ≠ (ascii "a.gltf").take ((ascii "a.gltf").length - 4) ++ ascii ".bin" := by
  refine ⟨?_, ?_, ?_⟩ <;> decide

/-- C9 amended: for every output path ending in `.gltf` or `.GLTF` the sibling
binary path opened by the writer is the output path with its last 5 characters
replaced by `.bin`, which differs from the output path with its last 4
characters replaced by `.bin`. -/
theorem C9_split_sibling_replaces_last_5 (canOpen : Bytes → Bool) (output json bin : Bytes)
    (hext : ascii ".gltf" <:+ output ∨ ascii ".GLTF" <:+ output) :
    ∃ o, main canOpen output json bin = some o ∧
      o.fopens = [output, output.take (output.length - 5) ++ ascii ".bin"] ∧
      output.take (output.length - 5) ++ ascii ".bin"
        ≠ output.take (output.length - 4) ++ ascii ".bin" := by
  have hb : binpath output = output.take (output.length - 5) ++ ascii ".bin" ∧
      5 ≤ output.length := by
    rcases hext with h | h
    · obtain ⟨pre, hp⟩ := h
      have hl : (ascii ".gltf").length = 5 := by decide
      have h5 : 5 ≤ output.length := by
        rw [← hp, List.length_append, hl]
        omega
      exact ⟨(binpath_of_suffix output _ hl ⟨pre, hp⟩).1, h5⟩
    · obtain ⟨pre, hp⟩ := h
      have hl : (ascii ".GLTF").length = 5 := by decide
      have h5 : 5 ≤ output.length := by
        rw [← hp, List.length_append, hl]
        omega
      exact ⟨(binpath_of_suffix output _ hl ⟨pre, hp⟩).1, h5⟩
  obtain ⟨o, ho, hf⟩ := writeSplit_some canOpen output json bin
  refine ⟨o, ?_, ?_, ?_⟩
  · rw [main_gltf canOpen output json bin hext]
    exact ho
  · rw [hf, hb.1]
  · intro heq
    have := congrArg List.length heq
    simp only [List.length_append, List.length_take] at this
    omega

/-- C9 amended, at the path `dir/model.gltf`. -/
theorem C9_split_sibling_replaces_last_5_witness :
    ascii ".gltf" <:+ ascii "dir/model.gltf" ∧
      ∃ o, main (fun _ => true) (ascii "dir/model.gltf") (ascii "x:1") [9] = some o ∧
        o.fopens = [ascii "dir/model.gltf",
          (ascii "dir/model.gltf").take ((ascii "dir/model.gltf").length - 5) ++ ascii ".bin"] ∧
        (ascii "dir/model.gltf").take ((ascii "dir/model.gltf").length - 5) ++ ascii ".bin"
          ≠ (ascii "dir/model.gltf").take ((ascii "dir/model.gltf").length - 4)
              ++ ascii ".bin" :=
  ⟨by decide,
    C9_split_sibling_replaces_last_5 (fun _ => true) (ascii "dir/model.gltf") (ascii "x:1") [9]
      (Or.inl (by decide))⟩

/-- The split branch for any output path, body and blob when both files open:
the JSON file holds the declaration with the local `binname` as uri and the
blob size in decimal, the body and one closing brace, and the sibling file
holds the blob unchanged. Without a path separator in the output path the
local `binname` is the sibling path, the name of the binary file. -/
theorem main_gltf_contents (canOpen : Bytes → Bool) (output json bin : Bytes)
    (hext : ascii ".gltf" <:+ output ∨ ascii ".GLTF" <:+ output)
    (hjson : canOpen output = true) (hbin : canOpen (binpath output) = true) :
    main canOpen output json bin
        = some ⟨0, [output, binpath output],
            [(output,
                ascii "\x7bbuffers:[\x7buri:\"" ++ binname output ++ ascii "\",byteLength:"
                  ++ ascii (Nat.repr bin.length) ++ ascii "\x7d]," ++ json ++ ascii "\x7d"),
              (binpath output, bin)]⟩ ∧
      binpath output = output.take (output.length - 5) ++ ascii ".bin" ∧
      (47 ∉ output → 92 ∉ output → binname output = binpath output) := by
  refine ⟨?_, ?_, binname_eq_binpath output⟩
  · rw [main_gltf canOpen output json bin hext,
      writeSplit_open canOpen output json bin hjson hbin]
    rfl
  · rcases hext with h | h
    · exact (binpath_of_suffix output _ (by decide) h).1
    · exact (binpath_of_suffix output _ (by decide) h).1

/-- C10, evaluated at failing inputs: for the output path `out/scene.gltf`
with the empty body and the empty blob that `process` leaves, both files
opening, the writer opens the binary file `out/scene.bin`, whose name is
`scene.bin`, and writes `{buffers:[{uri:"/scene.bin",byteLength:0}],}` to the
JSON file: the uri is neither the name of the binary file nor its path, so the
content is not the one claimed. Likewise `models\v2\ship.GLTF` gives the uri
`\ship.bin`. The sibling file holds the blob, here nothing. -/
theorem C10_split_uri_is_not_the_file_name :
    main (fun _ => true) (ascii "out/scene.gltf") [] []
        = some ⟨0, [ascii "out/scene.gltf", ascii "out/scene.bin"],
            [(ascii "out/scene.gltf",
                ascii "\x7bbuffers:[\x7buri:\"/scene.bin\",byteLength:0\x7d],\x7d"),
              (ascii "out/scene.bin", [])]⟩ ∧
      ascii "\x7bbuffers:[\x7buri:\"/scene.bin\",byteLength:0\x7d],\x7d"
        ≠ ascii "\x7bbuffers:[\x7buri:\"scene.bin\",byteLength:0\x7d],\x7d" ∧
      ascii "\x7bbuffers:[\x7buri:\"/scene.bin\",byteLength:0\x7d],\x7d"
        ≠ ascii "\x7bbuffers:[\x7buri:\"out/scene.bin\",byteLength:0\x7d],\x7d" ∧
      main (fun _ => true) (ascii "models\\v2\\ship.GLTF") [] []
        = some ⟨0, [ascii "models\\v2\\ship.GLTF", ascii "models\\v2\\ship.bin"],
            [(ascii "models\\v2\\ship.GLTF",
                ascii "\x7bbuffers:[\x7buri:\"\\ship.bin\",byteLength:0\x7d],\x7d"),
              (ascii "models\\v2\\ship.bin", [])]⟩ ∧
      ascii "\x7bbuffers:[\x7buri:\"\\ship.bin\",byteLength:0\x7d],\x7d"
        ≠ ascii "\x7bbuffers:[\x7buri:\"ship.bin\",byteLength:0\x7d],\x7d" := by
  refine ⟨?_, ?_, ?_, ?_, ?_⟩ <;> decide

/-! ## The loops of the extractor compute the closed form -/

theorem transformNormal_eq {F : Type} [Add F] [Mul F] [Div F] [Zero F] [One F] [BEq F]
    (sqrtf : F → F) (ptr : Attr F) (transform : Nat → F) :
    transformNormal sqrtf ptr transform = some (normalOf sqrtf ptr transform) := by
  simp only [transformNormal, normalOf, divide]
  split_ifs <;> rfl

theorem transformNormals_eq {F : Type} [Add F] [Mul F] [Div F] [Zero F] [One F] [BEq F]
    (sqrtf : F → F) (transform : Nat → F) (data : List (Attr F)) :
    transformNormals sqrtf transform data
      = some (data.map (fun a => normalOf sqrtf a transform)) := by
  induction data with
  | nil => rfl
  | cons a rest ih => simp only [transformNormals, transformNormal_eq, ih, List.map_cons]

theorem parseAttribute_eq {F : Type} [Add F] [Mul F] [Div F] [Zero F] [One F] [BEq F]
    (sqrtf : F → F) (transform : Nat → F) (attr : cgltf_attribute F) :
    parseAttribute sqrtf transform attr = some (streamOf sqrtf transform attr) := by
  simp only [parseAttribute, streamOf, transformNormals_eq]
  split_ifs <;> rfl

theorem parseAttributes_eq {F : Type} [Add F] [Mul F] [Div F] [Zero F] [One F] [BEq F]
    (sqrtf : F → F) (transform : Nat → F) (attrs : List (cgltf_attribute F))
    (streams : List (Stream F)) :
    parseAttributes sqrtf transform attrs streams
      = some (streams ++ (attrs.filter
          (fun attr => decide (attr.type ≠ cgltf_attribute_type.invalid))).map
            (streamOf sqrtf transform)) := by
  induction attrs generalizing streams with
  | nil => simp [parseAttributes]
  | cons attr rest ih =>
    by_cases h : attr.type = cgltf_attribute_type.invalid
    · simp [parseAttributes, h, ih]
    · simp [parseAttributes, h, ih, parseAttribute_eq]

theorem parsePrimitive_eq {F : Type} [Add F] [Mul F] [Div F] [Zero F] [One F] [BEq F]
    (sqrtf : F → F) (transform : Nat → F) (primitive : cgltf_primitive F) :
    parsePrimitive sqrtf transform primitive = some (meshOf sqrtf transform primitive) := by
  simp [parsePrimitive, meshOf, validAttributes, parseAttributes_eq]

theorem parsePrimitives_eq {F : Type} [Add F] [Mul F] [Div F] [Zero F] [One F] [BEq F]
    (sqrtf : F → F) (transform : Nat → F) (primitives : List (cgltf_primitive F))
    (meshes : List (Mesh F)) :
    parsePrimitives sqrtf transform primitives meshes
      = some (meshes ++ (primitives.map (meshOf sqrtf transform)).filter kept) := by
  induction primitives generalizing meshes with
  | nil => simp [parsePrimitives]
  | cons primitive rest ih =>
    simp only [parsePrimitives, parsePrimitive_eq, List.map_cons]
    by_cases h : (meshOf sqrtf transform primitive).indices.length ≠ 0
        ∧ (meshOf sqrtf transform primitive).streams.length ≠ 0
    · have hk : kept (meshOf sqrtf transform primitive) = true := by
        simp only [kept, decide_eq_true_eq]
        exact h
      rw [if_pos h, ih, List.filter_cons_of_pos hk]
      simp
    · have hk : ¬ kept (meshOf sqrtf transform primitive) = true := by
        simp only [kept, decide_eq_true_eq]
        exact h
      rw [if_neg h, ih, List.filter_cons_of_neg hk]

theorem parseNodes_eq {F : Type} [Add F] [Mul F] [Div F] [Zero F] [One F] [BEq F]
    (sqrtf : F → F) (nodes : List (cgltf_node F)) (meshes : List (Mesh F)) :
    parseNodes sqrtf nodes meshes
      = some (meshes ++ (nodes.map (meshesOfNode sqrtf)).flatten) := by
  induction nodes generalizing meshes with
  | nil => simp [parseNodes]
  | cons node rest ih =>
    cases hm : node.mesh with
    | none => simp [parseNodes, hm, ih, meshesOfNode]
    | some mesh => simp [parseNodes, hm, ih, meshesOfNode, parsePrimitives_eq]

/-- The function `parseMeshes` always returns, with the list it was given
followed by the meshes specified for the document. -/
theorem parseMeshes_eq {F : Type} [Add F] [Mul F] [Div F] [Zero F] [One F] [BEq F]
    (sqrtf : F → F) (data : cgltf_data F) (meshes : List (Mesh F)) :
    parseMeshes sqrtf data meshes = some (meshes ++ extracted sqrtf data) := by
  simp only [parseMeshes, parseNodes_eq, extracted]

theorem readIndices_length {F : Type} (a : cgltf_accessor F) :
    (readIndices a).length = a.count := by
  simp [readIndices]

theorem readFloats_length {F : Type} [Zero F] (a : cgltf_accessor F) :
    (readFloats a).length = a.count := by
  simp [readFloats]

theorem streamOf_data_length {F : Type} [Add F] [Mul F] [Div F] [Zero F] [One F] [BEq F]
    (sqrtf : F → F) (transform : Nat → F) (attr : cgltf_attribute F) :
    (streamOf sqrtf transform attr).data.length = attr.data.count := by
  simp only [streamOf]
  split_ifs <;> simp [readFloats_length]

/-- The specified mesh has an index exactly when the primitive has an index
accessor with at least one element. -/
theorem meshOf_indices_length_ne_zero {F : Type} [Add F] [Mul F] [Div F] [Zero F] [One F]
    [BEq F] (sqrtf : F → F) (transform : Nat → F) (primitive : cgltf_primitive F) :
    (meshOf sqrtf transform primitive).indices.length ≠ 0
      ↔ ∃ a, primitive.indices = some a ∧ 0 < a.count := by
  cases h : primitive.indices with
  | none => simp [meshOf, h]
  | some a =>
    simp only [meshOf, h, readIndices_length, Option.some.injEq, exists_eq_left']
    omega

/-- The specified mesh has a stream exactly when the primitive has an attribute
whose semantic is not invalid. -/
theorem meshOf_streams_length_ne_zero {F : Type} [Add F] [Mul F] [Div F] [Zero F] [One F]
    [BEq F] (sqrtf : F → F) (transform : Nat → F) (primitive : cgltf_primitive F) :
    (meshOf sqrtf transform primitive).streams.length ≠ 0
      ↔ ∃ attr ∈ primitive.attributes, attr.type ≠ cgltf_attribute_type.invalid := by
  simp only [meshOf, validAttributes, List.length_map, ne_eq, List.length_eq_zero,
    List.filter_eq_nil_iff, decide_eq_true_eq, not_forall, Classical.not_not, exists_prop]

theorem kept_meshOf_iff {F : Type} [Add F] [Mul F] [Div F] [Zero F] [One F] [BEq F]
    (sqrtf : F → F) (transform : Nat → F) (primitive : cgltf_primitive F) :
    kept (meshOf sqrtf transform primitive) = true
      ↔ (∃ a, primitive.indices = some a ∧ 0 < a.count)
        ∧ ∃ attr ∈ primitive.attributes, attr.type ≠ cgltf_attribute_type.invalid := by
  simp only [kept, decide_eq_true_eq, meshOf_indices_length_ne_zero,
    meshOf_streams_length_ne_zero]

theorem kept_iff {F : Type} (m : Mesh F) :
    kept m = true ↔ m.indices ≠ [] ∧ m.streams ≠ [] := by
  simp [kept]

/-- Where a mesh of the closed form comes from. -/
theorem mem_extracted {F : Type} [Add F] [Mul F] [Div F] [Zero F] [One F] [BEq F]
    (sqrtf : F → F) (data : cgltf_data F) (m : Mesh F) :
    m ∈ extracted sqrtf data ↔
      ∃ node ∈ data.nodes, ∃ mesh, node.mesh = some mesh ∧
        ∃ p ∈ mesh.primitives, m = meshOf sqrtf node.world p ∧ kept m = true := by
  simp only [extracted, List.mem_flatten, List.mem_map, exists_exists_and_eq_and]
  constructor
  · rintro ⟨node, hn, hm⟩
    cases hmesh : node.mesh with
    | none => simp [meshesOfNode, hmesh] at hm
    | some mesh =>
      simp only [meshesOfNode, hmesh, List.mem_filter, List.mem_map] at hm
      obtain ⟨⟨p, hp, rfl⟩, hk⟩ := hm
      exact ⟨node, hn, mesh, hmesh, p, hp, rfl, hk⟩
  · rintro ⟨node, hn, mesh, hmesh, p, hp, rfl, hk⟩
    refine ⟨node, hn, ?_⟩
    simp only [meshesOfNode, hmesh, List.mem_filter, List.mem_map]
    exact ⟨⟨p, hp, rfl⟩, hk⟩

theorem parsePrimitives_singleton {F : Type} [Add F] [Mul F] [Div F] [Zero F] [One F]
    [BEq F] (sqrtf : F → F) (transform : Nat → F) (primitive : cgltf_primitive F)
    (meshes : List (Mesh F)) :
    parsePrimitives sqrtf transform [primitive] meshes
      = some (if kept (meshOf sqrtf transform primitive) = true
          then meshes ++ [meshOf sqrtf transform primitive] else meshes) := by
  rw [parsePrimitives_eq]
  by_cases h : kept (meshOf sqrtf transform primitive) = true
  · rw [if_pos h, List.map_singleton, List.filter_cons_of_pos h, List.filter_nil]
  · rw [if_neg h, List.map_singleton, List.filter_cons_of_neg h, List.filter_nil,
      List.append_nil]

/-! ## The claims on the extractor -/

/-- C11: the extractor emits a mesh for a primitive exactly when the primitive
has an index accessor with at least one element and an attribute whose
semantic is not invalid, that is when it ends up with an index and a stream.
A primitive without index accessor, with an index accessor of count zero,
without attributes, or with invalid attributes only, leaves the list as it
was. Every mesh that `parseMeshes` appends has indices and streams, so every
mesh of the output has when the list given is empty. -/
theorem C11_mesh_emitted_iff_index_and_stream {F : Type} [Add F] [Mul F] [Div F] [Zero F]
    [One F] [BEq F] (sqrtf : F → F) (transform : Nat → F) (primitive : cgltf_primitive F)
    (data : cgltf_data F) (meshes : List (Mesh F)) :
    (((∃ a, primitive.indices = some a ∧ 0 < a.count)
          ∧ ∃ attr ∈ primitive.attributes, attr.type ≠ cgltf_attribute_type.invalid) →
        ∃ m, parsePrimitives sqrtf transform [primitive] meshes = some (meshes ++ [m])
          ∧ m.indices ≠ [] ∧ m.streams ≠ []) ∧
      (¬ ((∃ a, primitive.indices = some a ∧ 0 < a.count)
          ∧ ∃ attr ∈ primitive.attributes, attr.type ≠ cgltf_attribute_type.invalid) →
        parsePrimitives sqrtf transform [primitive] meshes = some meshes) ∧
      (primitive.indices = none →
        parsePrimitives sqrtf transform [primitive] meshes = some meshes) ∧
      ((∃ a, primitive.indices = some a ∧ a.count = 0) →
        parsePrimitives sqrtf transform [primitive] meshes = some meshes) ∧
      (primitive.attributes = [] →
        parsePrimitives sqrtf transform [primitive] meshes = some meshes) ∧
      ((∀ attr ∈ primitive.attributes, attr.type = cgltf_attribute_type.invalid) →
        parsePrimitives sqrtf transform [primitive] meshes = some meshes) ∧
      (∃ new, parseMeshes sqrtf data meshes = some (meshes ++ new)
        ∧ ∀ m ∈ new, m.indices ≠ [] ∧ m.streams ≠ []) ∧
      (∃ out, parseMeshes sqrtf data [] = some out
        ∧ ∀ m ∈ out, m.indices ≠ [] ∧ m.streams ≠ []) := by
  have hdrop : ¬ ((∃ a, primitive.indices = some a ∧ 0 < a.count)
      ∧ ∃ attr ∈ primitive.attributes, attr.type ≠ cgltf_attribute_type.invalid) →
      parsePrimitives sqrtf transform [primitive] meshes = some meshes := by
    intro h
    rw [parsePrimitives_singleton, if_neg]
    rwa [kept_meshOf_iff]
  have hmem : ∀ m ∈ extracted sqrtf data, m.indices ≠ [] ∧ m.streams ≠ [] := by
    intro m hm
    obtain ⟨_, _, _, _, _, _, _, hk⟩ := (mem_extracted sqrtf data m).mp hm
    exact (kept_iff m).mp hk
  refine ⟨?_, hdrop, ?_, ?_, ?_, ?_, ?_, ?_⟩
  · intro h
    have hk := (kept_meshOf_iff sqrtf transform primitive).mpr h
    refine ⟨meshOf sqrtf transform primitive, ?_, (kept_iff _).mp hk⟩
    rw [parsePrimitives_singleton, if_pos hk]
  · intro h
    apply hdrop
    rintro ⟨⟨a, ha, -⟩, -⟩
    rw [h] at ha
    cases ha
  · rintro ⟨a, ha, h0⟩
    apply hdrop
    rintro ⟨⟨b, hb, hpos⟩, -⟩
    rw [ha] at hb
    cases hb
    omega
  · intro h
    apply hdrop
    rintro ⟨-, attr, hattr, -⟩
    rw [h] at hattr
    cases hattr
  · intro h
    apply hdrop
    rintro ⟨-, attr, hattr, hne⟩
    exact hne (h attr hattr)
  · exact ⟨extracted sqrtf data, parseMeshes_eq sqrtf data meshes, hmem⟩
  · refine ⟨extracted sqrtf data, ?_, hmem⟩
    rw [parseMeshes_eq]
    rfl

/-- C11 at the triangle primitive, which is kept, and at the same primitive
without its index accessor, which is dropped. -/
theorem C11_mesh_emitted_iff_index_and_stream_witness :
    (∃ m, parsePrimitives sqrtQ (translation 0 0 0) [trianglePrimitive] [] = some ([] ++ [m])
        ∧ m.indices ≠ [] ∧ m.streams ≠ []) ∧
      parsePrimitives sqrtQ (translation 0 0 0)
        [⟨none, trianglePrimitive.attributes⟩] [] = some [] :=
  ⟨(C11_mesh_emitted_iff_index_and_stream sqrtQ (translation 0 0 0) trianglePrimitive
      triangleData []).1
        ⟨⟨threeIndices, rfl, by decide⟩, ⟨_, List.mem_singleton.mpr rfl, by decide⟩⟩,
    (C11_mesh_emitted_iff_index_and_stream sqrtQ (translation 0 0 0)
      ⟨none, trianglePrimitive.attributes⟩ triangleData []).2.2.1 rfl⟩

/-- C12: `parseMeshes` returns the list it was given followed by the meshes of
the nodes in node order. A node without mesh contributes nothing; a node with
a mesh contributes the kept meshes of the primitives of that mesh in primitive
order, built with the world transform of the node, so a mesh referenced by two
nodes contributes once for each. -/
theorem C12_parseMeshes_appends_in_traversal_order {F : Type} [Add F] [Mul F] [Div F]
    [Zero F] [One F] [BEq F] (sqrtf : F → F) (data : cgltf_data F) (meshes : List (Mesh F)) :
    parseMeshes sqrtf data meshes
        = some (meshes ++ (data.nodes.map (meshesOfNode sqrtf)).flatten) ∧
      (∀ node : cgltf_node F, node.mesh = none → meshesOfNode sqrtf node = []) ∧
      (∀ (node : cgltf_node F) (mesh : cgltf_mesh F), node.mesh = some mesh →
        meshesOfNode sqrtf node
          = (mesh.primitives.map (meshOf sqrtf node.world)).filter kept) ∧
      (∀ (pre post : List (cgltf_node F)) (node : cgltf_node F),
        parseMeshes sqrtf ⟨pre ++ node :: post⟩ meshes
          = some (meshes ++ extracted sqrtf ⟨pre⟩ ++ meshesOfNode sqrtf node
              ++ extracted sqrtf ⟨post⟩)) ∧
      (∀ (mesh : cgltf_mesh F) (w1 w2 : Nat → F),
        parseMeshes sqrtf ⟨[⟨some mesh, w1⟩, ⟨some mesh, w2⟩]⟩ meshes
          = some (meshes ++ (mesh.primitives.map (meshOf sqrtf w1)).filter kept
              ++ (mesh.primitives.map (meshOf sqrtf w2)).filter kept)) := by
  refine ⟨parseMeshes_eq sqrtf data meshes, ?_, ?_, ?_, ?_⟩
  · intro node h
    simp [meshesOfNode, h]
  · intro node mesh h
    simp [meshesOfNode, h]
  · intro pre post node
    rw [parseMeshes_eq]
    simp [extracted]
  · intro mesh w1 w2
    rw [parseMeshes_eq]
    simp [extracted, meshesOfNode]

theorem streamOf_other {F : Type} [Add F] [Mul F] [Div F] [Zero F] [One F] [BEq F]
    (sqrtf : F → F) (transform : Nat → F) (attr : cgltf_attribute F)
    (h1 : attr.type ≠ cgltf_attribute_type.position)
    (h2 : attr.type ≠ cgltf_attribute_type.normal)
    (h3 : attr.type ≠ cgltf_attribute_type.tangent) :
    streamOf sqrtf transform attr = ⟨attr.type, attr.index, readFloats attr.data⟩ := by
  simp [streamOf, h1, h2, h3]

/-- C12 at a document of three nodes, the first and the last sharing one mesh
and the middle one without mesh, and a list that holds one mesh already: the
list grows by the mesh of the first node and then that of the last. -/
theorem C12_parseMeshes_appends_in_traversal_order_witness :
    parseMeshes sqrtQ sharedMeshData [⟨[], [7]⟩]
      = some [⟨[], [7]⟩,
          ⟨[⟨cgltf_attribute_type.position, 0,
              [⟨1, 0, 1, 0⟩, ⟨2, 2, 1, 0⟩, ⟨3, 4, 1, 0⟩]⟩], [0, 1, 2]⟩,
          ⟨[⟨cgltf_attribute_type.position, 0,
              [⟨0, 0, 1, 0⟩, ⟨1, 2, 1, 0⟩, ⟨2, 4, 1, 0⟩]⟩], [0, 1, 2]⟩] := by
  rw [(C12_parseMeshes_appends_in_traversal_order sqrtQ sharedMeshData [⟨[], [7]⟩]).1]
  simp [sharedMeshData, meshesOfNode, trianglePrimitive, meshOf, validAttributes, streamOf,
    kept, readFloats, readIndices, vec3Accessor, threeIndices, List.range_succ,
    transformPosition, translation]
  norm_num

/-- C13: a kept primitive yields one mesh. Its indices are as many as the
index accessor counts, entry `i` being the decoded index `i` converted to
`unsigned int`, which is the decoded index itself when that is below 2^32. Its
streams are one for each attribute whose semantic is not invalid, in attribute
order, with the semantic and set index of the attribute and as many records as
the accessor of the attribute counts. In a stream whose semantic is not
position, normal or tangent, record `i` is what `cgltf_accessor_read_float`
decodes at position `i` of the accessor over a zeroed record. -/
theorem C13_kept_mesh_contents {F : Type} [Add F] [Mul F] [Div F] [Zero F] [One F] [BEq F]
    (sqrtf : F → F) (transform : Nat → F) (primitive : cgltf_primitive F)
    (meshes : List (Mesh F)) (a : cgltf_accessor F)
    (hidx : primitive.indices = some a) (hcount : 0 < a.count)
    (hattr : ∃ attr ∈ primitive.attributes, attr.type ≠ cgltf_attribute_type.invalid) :
    ∃ m, parsePrimitives sqrtf transform [primitive] meshes = some (meshes ++ [m]) ∧
      m.indices.length = a.count ∧
      (∀ i, i < a.count → m.indices[i]? = some (a.read_index i % 2 ^ 32)) ∧
      ((∀ i, i < a.count → a.read_index i < 2 ^ 32) →
        m.indices = (List.range a.count).map a.read_index) ∧
      m.streams.map (fun s => (s.type, s.index, s.data.length))
        = (primitive.attributes.filter
            (fun attr => decide (attr.type ≠ cgltf_attribute_type.invalid))).map
              (fun attr => (attr.type, attr.index, attr.data.count)) ∧
      (∀ (k : Nat) (attr : cgltf_attribute F),
        (primitive.attributes.filter
          (fun attr => decide (attr.type ≠ cgltf_attribute_type.invalid)))[k]? = some attr →
        attr.type ≠ cgltf_attribute_type.position →
        attr.type ≠ cgltf_attribute_type.normal →
        attr.type ≠ cgltf_attribute_type.tangent →
        m.streams[k]? = some ⟨attr.type, attr.index,
            (List.range attr.data.count).map
              (fun i => attr.data.read_float i ⟨0, 0, 0, 0⟩)⟩
          ∧ ∃ s, m.streams[k]? = some s ∧ ∀ i, i < attr.data.count →
              s.data[i]? = some (attr.data.read_float i ⟨0, 0, 0, 0⟩)) := by
  have hk := (kept_meshOf_iff sqrtf transform primitive).mpr ⟨⟨a, hidx, hcount⟩, hattr⟩
  have hi : (meshOf sqrtf transform primitive).indices = readIndices a := by
    simp [meshOf, hidx]
  refine ⟨meshOf sqrtf transform primitive, ?_, ?_, ?_, ?_, ?_, ?_⟩
  · rw [parsePrimitives_singleton, if_pos hk]
  · rw [hi, readIndices_length]
  · intro i h
    rw [hi]
    simp [readIndices, List.getElem?_map, List.getElem?_range h]
  · intro h
    rw [hi, readIndices]
    apply List.map_congr_left
    intro i hmem
    exact Nat.mod_eq_of_lt (h i (List.mem_range.mp hmem))
  · simp only [meshOf, validAttributes, List.map_map]
    apply List.map_congr_left
    intro attr _
    exact Prod.ext rfl (Prod.ext rfl (streamOf_data_length sqrtf transform attr))
  · intro k attr hka h1 h2 h3
    have hs : (meshOf sqrtf transform primitive).streams
        = (primitive.attributes.filter
            (fun attr => decide (attr.type ≠ cgltf_attribute_type.invalid))).map
              (streamOf sqrtf transform) := rfl
    have hst : (meshOf sqrtf transform primitive).streams[k]?
        = some ⟨attr.type, attr.index, (List.range attr.data.count).map
            (fun i => attr.data.read_float i ⟨0, 0, 0, 0⟩)⟩ := by
      rw [hs, List.getElem?_map, hka, Option.map_some',
        streamOf_other sqrtf transform attr h1 h2 h3]
      rfl
    refine ⟨hst, _, hst, ?_⟩
    intro i hi
    simp [List.getElem?_map, List.getElem?_range hi]

set_option maxRecDepth 100000 in
/-- C13 at the scenario of the specification, one node at the identity
transform with one primitive that has a position stream of 3 vertices and 3
indices: one mesh, 3 indices, one stream of 3 records. And, on floats, at the
sample primitive with the indices 2, 0, 1 and four attributes, the second of
unknown semantic: the mesh has the indices 2, 0, 1 and three streams of 3
records, and the stream of the texture coordinates of set 1 holds the three
decoded pairs, each over a zeroed record. The last equation is evaluated on
the code itself. -/
theorem C13_kept_mesh_contents_witness :
    (∃ m, parsePrimitives sqrtQ (translation 0 0 0) [trianglePrimitive] [] = some ([] ++ [m]) ∧
      m.indices.length = 3 ∧
      m.streams.map (fun s => (s.type, s.index, s.data.length))
        = [(cgltf_attribute_type.position, 0, 3)]) ∧
    (parseMeshes sqrtQ triangleData []).map
        (fun ms => ms.map (fun m => (m.indices, m.streams.map (fun s => s.data.length))))
      = some [([0, 1, 2], [3])] ∧
    (∃ m, parsePrimitives Float32.sqrtf (translationOf 0 0 0) [texturedPrimitive] []
        = some ([] ++ [m]) ∧
      m.indices = [2, 0, 1] ∧
      m.streams.map (fun s => (s.type, s.index, s.data.length))
        = [(cgltf_attribute_type.position, 0, 3), (cgltf_attribute_type.texcoord, 1, 3),
            (cgltf_attribute_type.normal, 0, 3)] ∧
      m.streams[1]? = some ⟨cgltf_attribute_type.texcoord, 1,
        [⟨Float32.scaled 1 (-1), Float32.scaled 1 (-2), 0, 0⟩, ⟨0, 1, 0, 0⟩,
          ⟨1, 0, 0, 0⟩]⟩) ∧
    parseAttribute Float32.sqrtf (translationOf 0 0 0)
        ⟨cgltf_attribute_type.texcoord, 1,
          pairAccessor [(Float32.scaled 1 (-1), Float32.scaled 1 (-2)), (0, 1), (1, 0)]⟩
      = some ⟨cgltf_attribute_type.texcoord, 1,
          [⟨Float32.scaled 1 (-1), Float32.scaled 1 (-2), 0, 0⟩, ⟨0, 1, 0, 0⟩,
            ⟨1, 0, 0, 0⟩]⟩ := by
  refine ⟨?_, ?_, ?_, by decide⟩
  · obtain ⟨m, h1, h2, -, -, h5, -⟩ :=
      C13_kept_mesh_contents sqrtQ (translation 0 0 0) trianglePrimitive [] threeIndices rfl
        (by decide) ⟨_, List.mem_singleton.mpr rfl, by decide⟩
    exact ⟨m, h1, h2, h5⟩
  · rw [parseMeshes_eq]
    decide
  · obtain ⟨m, h1, -, -, h4, h5, h6⟩ :=
      C13_kept_mesh_contents Float32.sqrtf (translationOf 0 0 0) texturedPrimitive []
        (indexAccessor [2, 0, 1]) rfl (by decide) ⟨_, List.mem_cons_self _ _, by decide⟩
    refine ⟨m, h1, (h4 (by decide)).trans (by decide), h5.trans (by decide), ?_⟩
    exact ((h6 1 ⟨cgltf_attribute_type.texcoord, 1,
      pairAccessor [(Float32.scaled 1 (-1), Float32.scaled 1 (-2)), (0, 1), (1, 0)]⟩
      rfl (by decide) (by decide) (by decide)).1).trans (by decide)

/-- In exact arithmetic the new components are the first three rows of the
product of the column-major matrix with the vector `(x, y, z, 1)`. -/
theorem transformPosition_eq_mulVec {F : Type} [CommSemiring F] (ptr : Attr F) (M : Nat → F) :
    let A : Matrix (Fin 4) (Fin 4) F := Matrix.of (fun r c => M (r.val + 4 * c.val))
    let v : Fin 4 → F := ![ptr.f0, ptr.f1, ptr.f2, 1]
    (transformPosition ptr M).f0 = Matrix.mulVec A v 0 ∧
      (transformPosition ptr M).f1 = Matrix.mulVec A v 1 ∧
      (transformPosition ptr M).f2 = Matrix.mulVec A v 2 := by
  intro A v
  have h3 : ((3 : Fin 4) : Nat) = 3 := rfl
  have h2 : ((2 : Fin 4) : Nat) = 2 := rfl
  refine ⟨?_, ?_, ?_⟩
  · simp [A, v, Matrix.mulVec, Matrix.dotProduct, Fin.sum_univ_four, transformPosition, h3, h2]
    ring
  · simp [A, v, Matrix.mulVec, Matrix.dotProduct, Fin.sum_univ_four, transformPosition, h3, h2]
    ring
  · simp [A, v, Matrix.mulVec, Matrix.dotProduct, Fin.sum_univ_four, transformPosition, h3, h2]
    ring

/-! ## The float model -/

namespace Binary32

theorem bitLenAux_zero (fuel : Nat) : bitLenAux fuel 0 = 0 := by
  cases fuel <;> simp [bitLenAux]

theorem bitLenAux_spec : ∀ (fuel n : Nat), n ≤ fuel → n ≠ 0 →
    2 ^ (bitLenAux fuel n - 1) ≤ n ∧ n < 2 ^ bitLenAux fuel n ∧ 0 < bitLenAux fuel n
  | 0, n, h, h0 => absurd (Nat.le_zero.mp h) h0
  | fuel + 1, n, h, h0 => by
    simp only [bitLenAux, if_neg h0]
    by_cases h2 : n / 2 = 0
    · rw [h2, bitLenAux_zero]
      have h1 : n = 1 := by omega
      subst h1
      simp
    · obtain ⟨l, u, p⟩ := bitLenAux_spec fuel (n / 2) (by omega) h2
      have e1 : bitLenAux fuel (n / 2) + 1 - 1 = (bitLenAux fuel (n / 2) - 1) + 1 := by omega
      refine ⟨?_, ?_, by omega⟩
      · rw [e1, pow_succ]
        omega
      · rw [pow_succ]
        omega

/-- The number of binary digits of a number other than zero. -/
theorem bitLen_spec (n : Nat) (h0 : n ≠ 0) :
    2 ^ (bitLen n - 1) ≤ n ∧ n < 2 ^ bitLen n ∧ 0 < bitLen n :=
  bitLenAux_spec n n (le_refl n) h0

theorem bitLen_unique (n b : Nat) (h1 : 2 ^ b ≤ n) (h2 : n < 2 ^ (b + 1)) :
    bitLen n = b + 1 := by
  have h0 : n ≠ 0 := by
    have : 0 < 2 ^ b := by positivity
    omega
  obtain ⟨l, u, p⟩ := bitLen_spec n h0
  by_contra hne
  rcases Nat.lt_or_gt_of_ne hne with h | h
  · have : 2 ^ bitLen n ≤ 2 ^ b := Nat.pow_le_pow_right (by decide) (by omega)
    omega
  · have : 2 ^ (b + 1) ≤ 2 ^ (bitLen n - 1) := Nat.pow_le_pow_right (by decide) (by omega)
    omega

theorem bitLen_mul_pow (m k : Nat) (hm : m ≠ 0) : bitLen (m * 2 ^ k) = bitLen m + k := by
  obtain ⟨l, u, p⟩ := bitLen_spec m hm
  have e1 : bitLen m + k = (bitLen m - 1 + k) + 1 := by omega
  rw [e1]
  apply bitLen_unique
  · rw [pow_add]
    exact Nat.mul_le_mul_right _ l
  · rw [← e1, pow_add]
    exact Nat.mul_lt_mul_of_pos_right u (by positivity)

theorem bitLen_le (m b : Nat) (hm : m ≠ 0) (h : m < 2 ^ b) : bitLen m ≤ b := by
  obtain ⟨l, u, p⟩ := bitLen_spec m hm
  by_contra hne
  have : 2 ^ b ≤ 2 ^ (bitLen m - 1) := Nat.pow_le_pow_right (by decide) (by omega)
  omega

/-- Rounding a canonical datum written with `k` more bits gives it back. -/
theorem round_scaled (neg : Bool) (m : Nat) (e : Int) (k : Nat) (hm : m ≠ 0)
    (h24 : m < 2 ^ 24) (hn : 2 ^ 23 ≤ m ∨ e = -149) (hlo : -149 ≤ e) (hhi : e ≤ 104) :
    round neg (m * 2 ^ k) (e - k) = fin neg m e := by
  have hM : m * 2 ^ k ≠ 0 := Nat.mul_ne_zero hm (by positivity)
  have hle : bitLen m ≤ 24 := bitLen_le m 24 hm h24
  have ht : max (e - (k : Int) + ((bitLen (m * 2 ^ k) : Nat) : Int) - 24) (-149) = e := by
    rw [bitLen_mul_pow m k hm]
    push_cast
    rcases hn with h | h
    · have : bitLen m = 24 := by
        have := bitLen_unique m 23 h h24
        omega
      rw [this]
      omega
    · omega
  have hpack : pack neg m e = fin neg m e := by
    simp only [pack]
    rw [if_neg (by omega)]
  simp only [round, if_neg hM, ht]
  by_cases hk : k = 0
  · subst hk
    simp [hpack]
  · have h1 : ¬ (e ≤ e - (k : Int)) := by omega
    have h2 : (e - (e - (k : Int))).toNat = k := by omega
    have hq : m * 2 ^ k / 2 ^ k = m := Nat.mul_div_cancel _ (by positivity)
    have hr : m * 2 ^ k % 2 ^ k = 0 := Nat.mul_mod_left _ _
    have hh : 0 < 2 ^ (k - 1) := by positivity
    rw [if_neg h1]
    simp only [h2, hq, hr]
    have hc : ¬ (2 ^ (k - 1) < 0 ∨ (0 = 2 ^ (k - 1) ∧ m % 2 = 1)) := by omega
    rw [if_neg hc, if_neg hm, if_neg (by omega)]
    exact hpack

end Binary32

namespace Float32

theorem ofBinary32_val (a : Float32) : ofBinary32 a.val = a := by
  simp [ofBinary32, a.ok]

theorem mul_def (a b : Float32) : a * b = ofBinary32 (Binary32.mul a.val b.val) := rfl

theorem add_def (a b : Float32) : a + b = ofBinary32 (Binary32.add a.val b.val) := rfl

theorem zero_val : (0 : Float32).val = Binary32.fin false 0 (-149) := rfl

theorem one_val : (1 : Float32).val = Binary32.fin false (2 ^ 23) (-23) := rfl

/-- The fields of a canonical finite datum. -/
theorem canonical_fin {neg : Bool} {m : Nat} {e : Int}
    (h : (Binary32.fin neg m e).canonical = true) :
    m < 2 ^ 24 ∧ -149 ≤ e ∧ e ≤ 104 ∧ (2 ^ 23 ≤ m ∨ e = -149) ∧ (m = 0 → neg = false) := by
  simp only [Binary32.canonical, decide_eq_true_eq] at h
  exact h

/-- Multiplying a float by one leaves it as it is. -/
theorem mul_one (a : Float32) : a * 1 = a := by
  rw [mul_def, one_val]
  conv_rhs => rw [← ofBinary32_val a]
  congr 1
  obtain ⟨x, hx⟩ := a
  cases x with
  | nan => rfl
  | inf s => simp [Binary32.mul]
  | fin s m e =>
    obtain ⟨h24, hlo, hhi, hn, hz⟩ := canonical_fin hx
    simp only [Binary32.mul, Bool.xor_false]
    by_cases hm : m = 0
    · subst hm
      have hs := hz rfl
      subst hs
      have he : e = -149 := by omega
      subst he
      rfl
    · have := Binary32.round_scaled s m e 23 hm h24 hn hlo hhi
      have e1 : e + -23 = e - ((23 : Nat) : Int) := by omega
      rw [e1]
      exact this

/-- Adding zero to a float leaves it as it is. -/
theorem add_zero (a : Float32) : a + 0 = a := by
  rw [add_def, zero_val]
  conv_rhs => rw [← ofBinary32_val a]
  congr 1
  obtain ⟨x, hx⟩ := a
  cases x with
  | nan => rfl
  | inf s => rfl
  | fin s m e =>
    obtain ⟨h24, hlo, hhi, hn, hz⟩ := canonical_fin hx
    by_cases hm : m = 0
    · subst hm
      have hs := hz rfl
      subst hs
      have he : e = -149 := by omega
      subst he
      rfl
    · have hmin : min e (-149) = -149 := by omega
      have hk : ((e - -149).toNat : Int) = e + 149 := by omega
      simp only [Binary32.add, hmin, sub_self, Int.toNat_zero, pow_zero, Nat.mul_one,
        Nat.zero_mul, Nat.cast_zero, mul_zero, Int.add_zero]
      have hpos : 0 < m * 2 ^ (e - -149).toNat := Nat.mul_pos (Nat.pos_of_ne_zero hm) (by positivity)
      have hr := Binary32.round_scaled s m e (e - -149).toNat hm h24 hn hlo hhi
      have e1 : e - (((e - -149).toNat : Nat) : Int) = -149 := by omega
      rw [e1] at hr
      cases s with
      | false =>
        simp only [Bool.false_eq_true, if_false, one_mul, Int.natAbs_ofNat]
        have : decide (((m * 2 ^ (e - -149).toNat : Nat) : Int) < 0) = false := by
          simp
        rw [this]
        exact hr
      | true =>
        simp only [if_true, neg_mul, one_mul, Int.natAbs_neg, Int.natAbs_ofNat]
        have : decide (-((m * 2 ^ (e - -149).toNat : Nat) : Int) < 0) = true := by
          simp only [decide_eq_true_eq]
          omega
        rw [this]
        exact hr

/-- Adding a float to zero gives the float. -/
theorem zero_add (a : Float32) : 0 + a = a := by
  rw [add_def, zero_val]
  conv_rhs => rw [← ofBinary32_val a]
  congr 1
  obtain ⟨x, hx⟩ := a
  cases x with
  | nan => rfl
  | inf s => rfl
  | fin s m e =>
    obtain ⟨h24, hlo, hhi, hn, hz⟩ := canonical_fin hx
    by_cases hm : m = 0
    · subst hm
      have hs := hz rfl
      subst hs
      have he : e = -149 := by omega
      subst he
      rfl
    · have hmin : min (-149) e = -149 := by omega
      simp only [Binary32.add, hmin, sub_self, Int.toNat_zero, pow_zero, Nat.mul_one,
        Nat.zero_mul, Nat.cast_zero, mul_zero, Int.zero_add]
      have hpos : 0 < m * 2 ^ (e - -149).toNat := Nat.mul_pos (Nat.pos_of_ne_zero hm) (by positivity)
      have hr := Binary32.round_scaled s m e (e - -149).toNat hm h24 hn hlo hhi
      have e1 : e - (((e - -149).toNat : Nat) : Int) = -149 := by omega
      rw [e1] at hr
      cases s with
      | false =>
        simp only [Bool.false_eq_true, if_false, one_mul, Int.natAbs_ofNat]
        have : decide (((m * 2 ^ (e - -149).toNat : Nat) : Int) < 0) = false := by
          simp
        rw [this]
        exact hr
      | true =>
        simp only [if_true, neg_mul, one_mul, Int.natAbs_neg, Int.natAbs_ofNat]
        have : decide (-((m * 2 ^ (e - -149).toNat : Nat) : Int) < 0) = true := by
          simp only [decide_eq_true_eq]
          omega
        rw [this]
        exact hr

end Float32

namespace Binary32

theorem add_nan_or_inf_left (x y : Binary32) (h : x = nan ∨ x = inf false) :
    add x y = nan ∨ add x y = inf false := by
  rcases h with rfl | rfl
  · cases y <;> exact Or.inl rfl
  · cases y with
    | nan => exact Or.inl rfl
    | inf s => cases s <;> simp [add]
    | fin s m e => exact Or.inr rfl

theorem add_nan_or_inf_right (x y : Binary32) (h : y = nan ∨ y = inf false) :
    add x y = nan ∨ add x y = inf false := by
  rcases h with rfl | rfl
  · cases x <;> exact Or.inl rfl
  · cases x with
    | nan => exact Or.inl rfl
    | inf s => cases s <;> simp [add]
    | fin s m e => exact Or.inr rfl

theorem mul_self_nan_or_inf (x : Binary32) :
    (∃ s m e, x = fin s m e) ∨ mul x x = nan ∨ mul x x = inf false := by
  cases x with
  | nan => exact Or.inr (Or.inl rfl)
  | inf s => cases s <;> simp [mul]
  | fin s m e => exact Or.inl ⟨s, m, e, rfl⟩

theorem sqrtf_nan_or_inf (x : Binary32) (h : x = nan ∨ x = inf false) :
    sqrtf x = nan ∨ sqrtf x = inf false := by
  rcases h with rfl | rfl
  · exact Or.inl rfl
  · exact Or.inr rfl

theorem beq_zero_of_nan_or_inf (x : Binary32) (h : x = nan ∨ x = inf false) :
    beq x zero = false := by
  rcases h with rfl | rfl
  · rfl
  · rfl

end Binary32

namespace Float32

theorem val_ofBinary32 (x : Binary32) (h : x = Binary32.nan ∨ x = Binary32.inf false) :
    (ofBinary32 x).val = x := by
  rcases h with rfl | rfl <;> rfl

/-- A finite float times zero is zero. -/
theorem mul_zero_of_fin (a : Float32) (s : Bool) (m : Nat) (e : Int)
    (h : a.val = Binary32.fin s m e) : a * 0 = 0 := by
  rw [mul_def, zero_val, h]
  simp only [Binary32.mul, Nat.mul_zero, Binary32.round, if_true]
  rfl

/-- Zero times a finite float is zero. -/
theorem zero_mul_of_fin (a : Float32) (s : Bool) (m : Nat) (e : Int)
    (h : a.val = Binary32.fin s m e) : 0 * a = 0 := by
  rw [mul_def, zero_val, h]
  simp only [Binary32.mul, Nat.zero_mul, Binary32.round, if_true]
  rfl

/-- A vector of floats whose length as the code computes it compares equal to
zero has finite components: each of them times zero is zero. -/
theorem mul_zero_of_length_zero (a b c : Float32)
    (h : (sqrtf (a * a + b * b + c * c) == 0) = true) :
    a * 0 = 0 ∧ b * 0 = 0 ∧ c * 0 = 0 := by
  have hbeq : Binary32.beq (sqrtf (a * a + b * b + c * c)).val Binary32.zero = true := h
  have key : ∀ s : Float32, (s.val = Binary32.nan ∨ s.val = Binary32.inf false) →
      ∀ t : Float32, t = sqrtf s → Binary32.beq t.val Binary32.zero = false := by
    intro s hs t ht
    have h1 := Binary32.sqrtf_nan_or_inf s.val hs
    have h2 : t.val = Binary32.sqrtf s.val := by
      rw [ht]
      exact val_ofBinary32 _ h1
    rw [h2]
    exact Binary32.beq_zero_of_nan_or_inf _ h1
  have sq : ∀ x : Float32, (∃ s m e, x.val = Binary32.fin s m e)
      ∨ ((x * x).val = Binary32.nan ∨ (x * x).val = Binary32.inf false) := by
    intro x
    rcases Binary32.mul_self_nan_or_inf x.val with h1 | h1
    · exact Or.inl h1
    · right
      have : (x * x).val = Binary32.mul x.val x.val := val_ofBinary32 _ h1
      rw [this]
      exact h1
  have addl : ∀ x y : Float32, (x.val = Binary32.nan ∨ x.val = Binary32.inf false) →
      ((x + y).val = Binary32.nan ∨ (x + y).val = Binary32.inf false) := by
    intro x y hx
    have h1 := Binary32.add_nan_or_inf_left x.val y.val hx
    have : (x + y).val = Binary32.add x.val y.val := val_ofBinary32 _ h1
    rw [this]
    exact h1
  have addr : ∀ x y : Float32, (y.val = Binary32.nan ∨ y.val = Binary32.inf false) →
      ((x + y).val = Binary32.nan ∨ (x + y).val = Binary32.inf false) := by
    intro x y hy
    have h1 := Binary32.add_nan_or_inf_right x.val y.val hy
    have : (x + y).val = Binary32.add x.val y.val := val_ofBinary32 _ h1
    rw [this]
    exact h1
  refine ⟨?_, ?_, ?_⟩
  · rcases sq a with ⟨s, m, e, h1⟩ | h1
    · exact mul_zero_of_fin a s m e h1
    · have := key _ (addl _ (c * c) (addl _ (b * b) h1)) _ rfl
      rw [this] at hbeq
      cases hbeq
  · rcases sq b with ⟨s, m, e, h1⟩ | h1
    · exact mul_zero_of_fin b s m e h1
    · have := key _ (addl _ (c * c) (addr (a * a) _ h1)) _ rfl
      rw [this] at hbeq
      cases hbeq
  · rcases sq c with ⟨s, m, e, h1⟩ | h1
    · exact mul_zero_of_fin c s m e h1
    · have := key _ (addr (a * a + b * b) _ h1) _ rfl
      rw [this] at hbeq
      cases hbeq

end Float32

namespace Binary32

theorem pack_canonical (neg : Bool) (m : Nat) (t : Int) (h0 : m ≠ 0) (h24 : m < 2 ^ 24)
    (hlo : -149 ≤ t) (hn : 2 ^ 23 ≤ m ∨ t = -149) : (pack neg m t).canonical = true := by
  simp only [pack]
  split_ifs with h
  · rfl
  · simp only [canonical, decide_eq_true_eq]
    exact ⟨h24, hlo, by omega, hn, fun h => absurd h h0⟩

/-- Rounding gives a canonical datum. -/
theorem round_canonical (neg : Bool) (M : Nat) (ex : Int) :
    (round neg M ex).canonical = true := by
  by_cases hM : M = 0
  · simp [round, hM, zero, canonical]
  · obtain ⟨l, u, p⟩ := bitLen_spec M hM
    simp only [round, if_neg hM]
    have hmax : -149 ≤ max (ex + ((bitLen M : Nat) : Int) - 24) (-149) := le_max_right _ _
    have hmax2 : ex + ((bitLen M : Nat) : Int) - 24
        ≤ max (ex + ((bitLen M : Nat) : Int) - 24) (-149) := le_max_left _ _
    have hmax3 : max (ex + ((bitLen M : Nat) : Int) - 24) (-149) = -149
        ∨ max (ex + ((bitLen M : Nat) : Int) - 24) (-149)
            = ex + ((bitLen M : Nat) : Int) - 24 := by
      rcases max_cases (ex + ((bitLen M : Nat) : Int) - 24) (-149) with h | h
      · exact Or.inr h.1
      · exact Or.inl h.1
    generalize max (ex + ((bitLen M : Nat) : Int) - 24) (-149) = t at hmax hmax2 hmax3
    by_cases h1 : t ≤ ex
    · rw [if_pos h1]
      have hd : bitLen M + (ex - t).toNat ≤ 24 := by omega
      apply pack_canonical
      · exact Nat.mul_ne_zero hM (by positivity)
      · calc M * 2 ^ (ex - t).toNat < 2 ^ bitLen M * 2 ^ (ex - t).toNat :=
              Nat.mul_lt_mul_of_pos_right u (by positivity)
          _ = 2 ^ (bitLen M + (ex - t).toNat) := (pow_add _ _ _).symm
          _ ≤ 2 ^ 24 := Nat.pow_le_pow_right (by decide) hd
      · exact hmax
      · rcases hmax3 with h | h
        · exact Or.inr h
        · left
          have hd2 : bitLen M - 1 + (ex - t).toNat = 23 := by omega
          calc 2 ^ 23 = 2 ^ (bitLen M - 1 + (ex - t).toNat) := by rw [hd2]
            _ = 2 ^ (bitLen M - 1) * 2 ^ (ex - t).toNat := pow_add _ _ _
            _ ≤ M * 2 ^ (ex - t).toNat := Nat.mul_le_mul_right _ l
    · rw [if_neg h1]
      have hq : M / 2 ^ (t - ex).toNat < 2 ^ 24 := by
        rw [Nat.div_lt_iff_lt_mul (by positivity)]
        calc M < 2 ^ bitLen M := u
          _ ≤ 2 ^ (24 + (t - ex).toNat) := Nat.pow_le_pow_right (by decide) (by omega)
          _ = 2 ^ 24 * 2 ^ (t - ex).toNat := pow_add _ _ _
      have hq2 : t ≠ -149 → 2 ^ 23 ≤ M / 2 ^ (t - ex).toNat := by
        intro hne
        have h : t = ex + ((bitLen M : Nat) : Int) - 24 := by
          rcases hmax3 with h | h
          · exact absurd h hne
          · exact h
        have hs2 : 23 + (t - ex).toNat = bitLen M - 1 := by omega
        rw [Nat.le_div_iff_mul_le (by positivity)]
        calc 2 ^ 23 * 2 ^ (t - ex).toNat = 2 ^ (23 + (t - ex).toNat) := (pow_add _ _ _).symm
          _ = 2 ^ (bitLen M - 1) := by rw [hs2]
          _ ≤ M := l
      have key : ∀ q1 : Nat, q1 = M / 2 ^ (t - ex).toNat ∨ q1 = M / 2 ^ (t - ex).toNat + 1 →
          (if q1 = 0 then zero else if q1 = 2 ^ 24 then pack neg (2 ^ 23) (t + 1)
            else pack neg q1 t).canonical = true := by
        intro q1 hq1
        by_cases h2 : q1 = 0
        · rw [if_pos h2]
          rfl
        · rw [if_neg h2]
          by_cases h3 : q1 = 2 ^ 24
          · rw [if_pos h3]
            exact pack_canonical neg (2 ^ 23) (t + 1) (by decide) (by decide) (by omega)
              (Or.inl (le_refl _))
          · rw [if_neg h3]
            apply pack_canonical neg q1 t h2 (by omega) hmax
            by_cases hne : t = -149
            · exact Or.inr hne
            · have := hq2 hne
              left
              omega
      apply key
      split_ifs
      · exact Or.inr rfl
      · exact Or.inl rfl

theorem mul_canonical (x y : Binary32) : (mul x y).canonical = true := by
  cases x <;> cases y <;> simp only [mul] <;> try split_ifs
  all_goals first | rfl | exact round_canonical _ _ _

theorem add_canonical (x y : Binary32) : (add x y).canonical = true := by
  cases x <;> cases y <;> simp only [add] <;> try split_ifs
  all_goals first | rfl | exact round_canonical _ _ _

theorem div_canonical (x y : Binary32) : (div x y).canonical = true := by
  cases x <;> cases y <;> simp only [div] <;> try split_ifs
  all_goals first | rfl | exact round_canonical _ _ _

theorem sqrtf_canonical (x : Binary32) : (sqrtf x).canonical = true := by
  cases x <;> simp only [sqrtf] <;> try split_ifs
  all_goals first | rfl | exact round_canonical _ _ _

end Binary32

namespace Float32

/-- The operations on floats are those on the data: the results are
canonical. -/
theorem val_ops (a b : Float32) :
    (a + b).val = Binary32.add a.val b.val ∧ (a * b).val = Binary32.mul a.val b.val ∧
      (a / b).val = Binary32.div a.val b.val ∧ (sqrtf a).val = Binary32.sqrtf a.val := by
  refine ⟨?_, ?_, ?_, ?_⟩
  · show (ofBinary32 _).val = _
    simp only [ofBinary32, Binary32.add_canonical, dite_true]
  · show (ofBinary32 _).val = _
    simp only [ofBinary32, Binary32.mul_canonical, dite_true]
  · show (ofBinary32 _).val = _
    simp only [ofBinary32, Binary32.div_canonical, dite_true]
  · show (ofBinary32 _).val = _
    simp only [ofBinary32, Binary32.sqrtf_canonical, dite_true]

end Float32

/-! ## The transforms under the laws of float arithmetic -/

/-- The instances of the laws on the float model. -/
theorem float32_laws : FloatLaws Float32 Float32.sqrtf :=
  { mul_one := Float32.mul_one
    add_zero := Float32.add_zero
    zero_add := Float32.zero_add
    zero_mul_zero := by decide
    one_div_one := by decide
    one_beq_zero := by decide
    zero_beq_zero := by decide
    sqrtf_zero := by decide
    mul_zero_of_length_zero := Float32.mul_zero_of_length_zero }

theorem transformPosition_of_translation {F : Type} [Add F] [Mul F] [Div F] [Zero F] [One F]
    [BEq F] (sqrtf : F → F) (laws : FloatLaws F sqrtf) (transform : Nat → F) (tx ty tz : F)
    (ht : IsTranslation transform tx ty tz) (a : Attr F) (hfin : finiteXYZ a) :
    transformPosition a transform = ⟨a.f0 + tx, a.f1 + ty, a.f2 + tz, a.f3⟩ := by
  obtain ⟨h0, h1, h2, h4, h5, h6, h8, h9, h10, h12, h13, h14⟩ := ht
  obtain ⟨f0, f1, f2⟩ := hfin
  simp only [transformPosition, h0, h1, h2, h4, h5, h6, h8, h9, h10, h12, h13, h14,
    laws.mul_one, f0, f1, f2, laws.add_zero, laws.zero_add]

theorem normalOf_of_translation {F : Type} [Add F] [Mul F] [Div F] [Zero F] [One F]
    [BEq F] (sqrtf : F → F) (laws : FloatLaws F sqrtf) (transform : Nat → F) (tx ty tz : F)
    (ht : IsTranslation transform tx ty tz) (a : Attr F) (hfin : finiteXYZ a) :
    normalOf sqrtf a transform = renormalized sqrtf a := by
  obtain ⟨h0, h1, h2, h4, h5, h6, h8, h9, h10, h12, h13, h14⟩ := ht
  obtain ⟨f0, f1, f2⟩ := hfin
  simp only [normalOf, renormalized, h0, h1, h2, h4, h5, h6, h8, h9, h10,
    laws.mul_one, f0, f1, f2, laws.add_zero, laws.zero_add]

/-- A record whose length as the code computes it is one is renormalized to
itself. -/
theorem renormalized_of_unit {F : Type} [Add F] [Mul F] [Div F] [Zero F] [One F] [BEq F]
    (sqrtf : F → F) (laws : FloatLaws F sqrtf) (a : Attr F)
    (h : sqrtf (a.f0 * a.f0 + a.f1 * a.f1 + a.f2 * a.f2) = 1) : renormalized sqrtf a = a := by
  simp only [renormalized, h, laws.one_beq_zero, Bool.false_eq_true, if_false,
    laws.one_div_one, laws.mul_one]

/-- The decoded records of an accessor, one for each position below `count`. -/
theorem readFloats_eq {F : Type} [Zero F] (a : cgltf_accessor F) :
    readFloats a = (List.range a.count).map (fun i => a.read_float i ⟨0, 0, 0, 0⟩) := rfl

/-- The mesh built for a primitive holds the records `record type a` when the
transform functions agree with `record` on every decoded record `a`. -/
theorem meshOf_eq_meshWith {F : Type} [Add F] [Mul F] [Div F] [Zero F] [One F] [BEq F]
    (sqrtf : F → F) (transform : Nat → F) (record : cgltf_attribute_type → Attr F → Attr F)
    (primitive : cgltf_primitive F)
    (h : ∀ attr ∈ primitive.attributes, ∀ i, i < attr.data.count →
      (if attr.type = cgltf_attribute_type.position then
          transformPosition (attr.data.read_float i ⟨0, 0, 0, 0⟩) transform
        else if attr.type = cgltf_attribute_type.normal
            ∨ attr.type = cgltf_attribute_type.tangent then
          normalOf sqrtf (attr.data.read_float i ⟨0, 0, 0, 0⟩) transform
        else attr.data.read_float i ⟨0, 0, 0, 0⟩)
        = record attr.type (attr.data.read_float i ⟨0, 0, 0, 0⟩)) :
    meshOf sqrtf transform primitive = meshWith record primitive := by
  have hs : (validAttributes primitive).map (streamOf sqrtf transform)
      = (validAttributes primitive).map (fun attr =>
          (⟨attr.type, attr.index, (List.range attr.data.count).map
            (fun i => record attr.type (attr.data.read_float i ⟨0, 0, 0, 0⟩))⟩ : Stream F)) := by
    apply List.map_congr_left
    intro attr hattr
    have hmem : attr ∈ primitive.attributes := (List.mem_filter.mp hattr).1
    have hd : (streamOf sqrtf transform attr).data = (List.range attr.data.count).map
        (fun i => record attr.type (attr.data.read_float i ⟨0, 0, 0, 0⟩)) := by
      simp only [streamOf, readFloats_eq, List.map_map]
      split_ifs with h1 h2
      · apply List.map_congr_left
        intro i hi
        have := h attr hmem i (List.mem_range.mp hi)
        rw [if_pos h1] at this
        exact this
      · apply List.map_congr_left
        intro i hi
        have := h attr hmem i (List.mem_range.mp hi)
        rw [if_neg h1, if_pos h2] at this
        exact this
      · apply List.map_congr_left
        intro i hi
        have := h attr hmem i (List.mem_range.mp hi)
        rw [if_neg h1, if_neg h2] at this
        exact this
    have ht : (streamOf sqrtf transform attr).type = attr.type := rfl
    have hi : (streamOf sqrtf transform attr).index = attr.index := rfl
    calc streamOf sqrtf transform attr
        = ⟨(streamOf sqrtf transform attr).type, (streamOf sqrtf transform attr).index,
            (streamOf sqrtf transform attr).data⟩ := rfl
      _ = _ := by rw [ht, hi, hd]
  simp only [meshOf, meshWith, hs, readIndices]

/-- The meshes that `parseMeshes` appends for one node of a document, between
those of the nodes before it and those of the nodes after it. -/
theorem parseMeshes_node {F : Type} [Add F] [Mul F] [Div F] [Zero F] [One F] [BEq F]
    (sqrtf : F → F) (record : cgltf_attribute_type → Attr F → Attr F)
    (before after : List (cgltf_node F)) (node : cgltf_node F) (mesh : cgltf_mesh F)
    (meshes : List (Mesh F)) (hmesh : node.mesh = some mesh)
    (h : ∀ p ∈ mesh.primitives, ∀ attr ∈ p.attributes, ∀ i, i < attr.data.count →
      (if attr.type = cgltf_attribute_type.position then
          transformPosition (attr.data.read_float i ⟨0, 0, 0, 0⟩) node.world
        else if attr.type = cgltf_attribute_type.normal
            ∨ attr.type = cgltf_attribute_type.tangent then
          normalOf sqrtf (attr.data.read_float i ⟨0, 0, 0, 0⟩) node.world
        else attr.data.read_float i ⟨0, 0, 0, 0⟩)
        = record attr.type (attr.data.read_float i ⟨0, 0, 0, 0⟩)) :
    parseMeshes sqrtf ⟨before ++ node :: after⟩ meshes
      = some (meshes ++ extracted sqrtf ⟨before⟩
          ++ (mesh.primitives.map (meshWith record)).filter kept
          ++ extracted sqrtf ⟨after⟩) := by
  have hm : mesh.primitives.map (meshOf sqrtf node.world)
      = mesh.primitives.map (meshWith record) := by
    apply List.map_congr_left
    intro p hp
    exact meshOf_eq_meshWith sqrtf node.world record p (h p hp)
  rw [parseMeshes_eq]
  simp [extracted, meshesOfNode, hmesh, hm]

/-! ## The claims on the transforms and on the scratch buffer -/

/-- C15: where multiplication commutes, as it does for floats, the record that
`transformPosition` leaves has the components
`M[0] x + M[4] y + M[8] z + M[12]`, `M[1] x + M[5] y + M[9] z + M[13]` and
`M[2] x + M[6] y + M[10] z + M[14]`, each from the components `x`, `y`, `z` the
record had before the call: the first three rows of the column-major matrix
times `(x, y, z, 1)`. -/
theorem C15_transformPosition_affine {F : Type} [Add F] [Mul F]
    (hcomm : ∀ a b : F, a * b = b * a) (ptr : Attr F) (M : Nat → F) :
    (transformPosition ptr M).f0 = M 0 * ptr.f0 + M 4 * ptr.f1 + M 8 * ptr.f2 + M 12 ∧
      (transformPosition ptr M).f1 = M 1 * ptr.f0 + M 5 * ptr.f1 + M 9 * ptr.f2 + M 13 ∧
      (transformPosition ptr M).f2 = M 2 * ptr.f0 + M 6 * ptr.f1 + M 10 * ptr.f2 + M 14 := by
  refine ⟨?_, ?_, ?_⟩ <;>
    simp only [transformPosition, hcomm ptr.f0, hcomm ptr.f1, hcomm ptr.f2]

/-- C15 over the integers, at the record `(1, 2, 3, 4)` and the matrix with
entry `i + 1` at index `i`. -/
theorem C15_transformPosition_affine_witness :
    (∀ a b : Int, a * b = b * a) ∧
      transformPosition (⟨1, 2, 3, 4⟩ : Attr Int) (fun i => (i : Int) + 1) = ⟨51, 58, 65, 4⟩ ∧
      (transformPosition (⟨1, 2, 3, 4⟩ : Attr Int) (fun i => (i : Int) + 1)).f0 = 51 ∧
      (transformPosition (⟨1, 2, 3, 4⟩ : Attr Int) (fun i => (i : Int) + 1)).f1 = 58 ∧
      (transformPosition (⟨1, 2, 3, 4⟩ : Attr Int) (fun i => (i : Int) + 1)).f2 = 65 := by
  obtain ⟨h0, h1, h2⟩ := C15_transformPosition_affine Int.mul_comm (⟨1, 2, 3, 4⟩ : Attr Int)
    (fun i => (i : Int) + 1)
  refine ⟨Int.mul_comm, by decide, ?_, ?_, ?_⟩
  · rw [h0]
    decide
  · rw [h1]
    decide
  · rw [h2]
    decide

set_option maxRecDepth 100000 in
/-- C16 as stated fails on floats, in three ways. Under the identity
transform, a pure translation by zero, the normal record `(2, 0, 0)` decoded
from the source accessor comes out of the extractor as `(1, 0, 0)`:
`transformNormal` renormalizes, so a normal is not left unchanged. Under the
translation by `(1, 0, 0)` the position `16777216` comes out as `16777216`,
the float nearest to the sum 16777217, so the offset is a rounded one. And
under the identity transform the position `(1, ∞, 0)` comes out as
`(NaN, ∞, NaN)`, because the product of an infinity and a zero entry of the
matrix is a NaN. -/
theorem C16_counterexample :
    IsTranslation (translationOf (0 : Float32) 0 0) 0 0 0 ∧
      (listAccessor [(⟨Float32.ofInt 2, 0, 0, 0⟩ : Attr Float32)]).read_float 0 ⟨0, 0, 0, 0⟩
        = ⟨Float32.ofInt 2, 0, 0, 0⟩ ∧
      parseMeshes Float32.sqrtf
          (oneStreamData (translationOf 0 0 0) cgltf_attribute_type.normal
            [⟨Float32.ofInt 2, 0, 0, 0⟩]) []
        = some [⟨[⟨cgltf_attribute_type.normal, 0, [⟨1, 0, 0, 0⟩]⟩], [0, 1, 2]⟩] ∧
      Float32.ofInt 2 ≠ 1 ∧
      IsTranslation (translationOf (1 : Float32) 0 0) 1 0 0 ∧
      parseMeshes Float32.sqrtf
          (oneStreamData (translationOf 1 0 0) cgltf_attribute_type.position
            [⟨Float32.ofInt 16777216, 0, 0, 0⟩]) []
        = some [⟨[⟨cgltf_attribute_type.position, 0, [⟨Float32.ofInt 16777216, 0, 0, 0⟩]⟩],
            [0, 1, 2]⟩] ∧
      (Float32.ofInt 16777216).val = Binary32.fin false (2 ^ 23) 1 ∧
      (1 : Float32).val = Binary32.fin false (2 ^ 23) (-23) ∧
      parseMeshes Float32.sqrtf
          (oneStreamData (translationOf 0 0 0) cgltf_attribute_type.position
            [⟨1, Float32.infinity, 0, 0⟩]) []
        = some [⟨[⟨cgltf_attribute_type.position, 0,
            [⟨Float32.nan, Float32.infinity, Float32.nan, 0⟩]⟩], [0, 1, 2]⟩] := by
  refine ⟨?_, ?_, ?_, ?_, ?_, ?_, ?_, ?_, ?_⟩
  · unfold IsTranslation
    decide
  · decide
  · decide
  · decide
  · unfold IsTranslation
    decide
  · decide
  · decide
  · decide
  · decide

/-- C16 amended. Under the laws of float arithmetic, for a node of a document
whose world transform is a pure translation by `(tx, ty, tz)` and whose decoded
position, normal and tangent records have finite first three components, the
meshes that `parseMeshes` appends for the node are those of its kept
primitives, each with one stream for each attribute with a valid semantic, in
which a position record is the decoded record with the float sums `x + tx`,
`y + ty`, `z + tz` as first three components, a normal or tangent record is
the decoded record with its first three components multiplied by the
reciprocal of their length `l` as the code computes it, or by zero when `l`
compares equal to zero, and any other record is the decoded record. A normal
or tangent with `l = 1` is therefore the decoded record, and so is every
position under the identity transform. -/
theorem C16_translation_streams {F : Type} [Add F] [Mul F] [Div F] [Zero F] [One F] [BEq F]
    (sqrtf : F → F) (laws : FloatLaws F sqrtf) (before after : List (cgltf_node F))
    (node : cgltf_node F) (mesh : cgltf_mesh F) (meshes : List (Mesh F)) (tx ty tz : F)
    (hmesh : node.mesh = some mesh) (ht : IsTranslation node.world tx ty tz)
    (hfin : ∀ p ∈ mesh.primitives, ∀ attr ∈ p.attributes,
      attr.type = cgltf_attribute_type.position ∨ attr.type = cgltf_attribute_type.normal
        ∨ attr.type = cgltf_attribute_type.tangent →
      ∀ i, i < attr.data.count → finiteXYZ (attr.data.read_float i ⟨0, 0, 0, 0⟩)) :
    parseMeshes sqrtf ⟨before ++ node :: after⟩ meshes
        = some (meshes ++ extracted sqrtf ⟨before⟩
            ++ (mesh.primitives.map (meshWith (translatedRecord sqrtf tx ty tz))).filter kept
            ++ extracted sqrtf ⟨after⟩) ∧
      (∀ a : Attr F, translatedRecord sqrtf tx ty tz cgltf_attribute_type.position a
        = ⟨a.f0 + tx, a.f1 + ty, a.f2 + tz, a.f3⟩) ∧
      (∀ a : Attr F, translatedRecord sqrtf tx ty tz cgltf_attribute_type.normal a
          = ⟨a.f0 * (if sqrtf (a.f0 * a.f0 + a.f1 * a.f1 + a.f2 * a.f2) == 0 then 0
                else 1 / sqrtf (a.f0 * a.f0 + a.f1 * a.f1 + a.f2 * a.f2)),
              a.f1 * (if sqrtf (a.f0 * a.f0 + a.f1 * a.f1 + a.f2 * a.f2) == 0 then 0
                else 1 / sqrtf (a.f0 * a.f0 + a.f1 * a.f1 + a.f2 * a.f2)),
              a.f2 * (if sqrtf (a.f0 * a.f0 + a.f1 * a.f1 + a.f2 * a.f2) == 0 then 0
                else 1 / sqrtf (a.f0 * a.f0 + a.f1 * a.f1 + a.f2 * a.f2)), a.f3⟩
        ∧ translatedRecord sqrtf tx ty tz cgltf_attribute_type.tangent a
          = translatedRecord sqrtf tx ty tz cgltf_attribute_type.normal a) ∧
      (∀ a : Attr F, sqrtf (a.f0 * a.f0 + a.f1 * a.f1 + a.f2 * a.f2) = 1 →
        translatedRecord sqrtf tx ty tz cgltf_attribute_type.normal a = a
          ∧ translatedRecord sqrtf tx ty tz cgltf_attribute_type.tangent a = a) ∧
      (∀ (type : cgltf_attribute_type) (a : Attr F),
        type ≠ cgltf_attribute_type.position → type ≠ cgltf_attribute_type.normal →
        type ≠ cgltf_attribute_type.tangent → translatedRecord sqrtf tx ty tz type a = a) ∧
      (tx = 0 → ty = 0 → tz = 0 → ∀ a : Attr F,
        translatedRecord sqrtf tx ty tz cgltf_attribute_type.position a = a) := by
  refine ⟨?_, ?_, ?_, ?_, ?_, ?_⟩
  · apply parseMeshes_node sqrtf _ before after node mesh meshes hmesh
    intro p hp attr hattr i hi
    simp only [translatedRecord]
    split_ifs with h1 h2
    · have hf := hfin p hp attr hattr (Or.inl h1) i hi
      exact transformPosition_of_translation sqrtf laws node.world tx ty tz ht _ hf
    · have hf := hfin p hp attr hattr (Or.inr h2) i hi
      exact normalOf_of_translation sqrtf laws node.world tx ty tz ht _ hf
    · rfl
  · intro a
    rfl
  · intro a
    exact ⟨rfl, rfl⟩
  · intro a h
    have hr := renormalized_of_unit sqrtf laws a h
    exact ⟨hr, hr⟩
  · intro type a h1 h2 h3
    simp [translatedRecord, h1, h2, h3]
  · intro hx hy hz a
    subst hx hy hz
    simp only [translatedRecord, if_true, laws.add_zero]

set_option maxRecDepth 100000 in
/-- C16 amended, on floats: the sample mesh under the translation by
`(1, 2, 3)`. The position `16777216` moves to `16777216` in x, the normal
`(0, 0, 1)` of length 1 stays, the normal `(3, 0, 4)` becomes
`(0.6, 0, 0.8)` in floats, the zero normal stays zero, texture coordinates
and the handedness of the tangents pass through. The last two equations are
evaluated on the code itself, for the second primitive and for the normal
`(3, 0, 4)`. -/
theorem C16_translation_streams_witness :
    IsTranslation (translationOf (1 : Float32) (Float32.ofInt 2) (Float32.ofInt 3))
        1 (Float32.ofInt 2) (Float32.ofInt 3) ∧
      parseMeshes Float32.sqrtf
          ⟨[] ++ (⟨some sampleMesh, translationOf 1 (Float32.ofInt 2) (Float32.ofInt 3)⟩
            : cgltf_node Float32) :: []⟩ []
        = some [
            ⟨[⟨cgltf_attribute_type.position, 0,
                [⟨1, Float32.ofInt 2, Float32.ofInt 3, 0⟩,
                  ⟨Float32.ofInt 2, Float32.scaled 5 (-1), 0, 0⟩,
                  ⟨Float32.ofInt 16777216, Float32.ofInt 2, Float32.ofInt 3, 0⟩]⟩,
              ⟨cgltf_attribute_type.texcoord, 1,
                [⟨Float32.scaled 1 (-1), Float32.scaled 1 (-2), 0, 0⟩, ⟨0, 1, 0, 0⟩,
                  ⟨1, 0, 0, 0⟩]⟩,
              ⟨cgltf_attribute_type.normal, 0,
                [⟨0, 0, 1, 0⟩,
                  ⟨Float32.scaled 10066330 (-24), 0, Float32.scaled 13421773 (-24), 0⟩,
                  ⟨0, 0, 0, 0⟩]⟩],
              [2, 0, 1]⟩,
            ⟨[⟨cgltf_attribute_type.position, 0,
                [⟨Float32.ofInt 2, Float32.ofInt 3, Float32.ofInt 4, 0⟩,
                  ⟨0, Float32.ofInt 2, Float32.ofInt 5, 0⟩]⟩,
              ⟨cgltf_attribute_type.tangent, 0,
                [⟨0, 1, 0, Float32.ofInt (-1)⟩, ⟨1, 0, 0, 1⟩]⟩],
              [0, 1]⟩] ∧
      parsePrimitive Float32.sqrtf (translationOf 1 (Float32.ofInt 2) (Float32.ofInt 3))
          linePrimitive
        = some ⟨[⟨cgltf_attribute_type.position, 0,
              [⟨Float32.ofInt 2, Float32.ofInt 3, Float32.ofInt 4, 0⟩,
                ⟨0, Float32.ofInt 2, Float32.ofInt 5, 0⟩]⟩,
            ⟨cgltf_attribute_type.tangent, 0,
              [⟨0, 1, 0, Float32.ofInt (-1)⟩, ⟨1, 0, 0, 1⟩]⟩], [0, 1]⟩ ∧
      parseAttribute Float32.sqrtf (translationOf 1 (Float32.ofInt 2) (Float32.ofInt 3))
          ⟨cgltf_attribute_type.normal, 0,
            listAccessor [⟨Float32.ofInt 3, 0, Float32.ofInt 4, 0⟩]⟩
        = some ⟨cgltf_attribute_type.normal, 0,
            [⟨Float32.scaled 10066330 (-24), 0, Float32.scaled 13421773 (-24), 0⟩]⟩ := by
  have ht : IsTranslation (translationOf (1 : Float32) (Float32.ofInt 2) (Float32.ofInt 3))
      1 (Float32.ofInt 2) (Float32.ofInt 3) := by
    unfold IsTranslation
    decide
  exact ⟨ht, ((C16_translation_streams Float32.sqrtf float32_laws [] []
    ⟨some sampleMesh, translationOf 1 (Float32.ofInt 2) (Float32.ofInt 3)⟩ sampleMesh []
    1 (Float32.ofInt 2) (Float32.ofInt 3) rfl ht (by decide)).1).trans (by decide),
    by decide, by decide⟩

set_option maxRecDepth 100000 in
/-- C18 as stated fails on floats in its last clause. For the record
`(0, 5, 12)` under the identity transform the linear part gives the vector
`(0, 5, 12)` of length 13, and `transformNormal` leaves `z = 0.92307699`, the
product of 12 and the float nearest to 1/13, while 12 divided by 13 is
`0.92307693` in floats. For the record `(3, 0, 4)` of length 5 it leaves
`x = 10066330 / 2^24`, which is not 3/5. The components are multiplied by a
rounded reciprocal, not divided by the length. -/
theorem C18_counterexample :
    linearPart (⟨0, Float32.ofInt 5, Float32.ofInt 12, 0⟩ : Attr Float32) (translationOf 0 0 0)
        = (0, Float32.ofInt 5, Float32.ofInt 12) ∧
      vecLength Float32.sqrtf ((0 : Float32), Float32.ofInt 5, Float32.ofInt 12)
        = Float32.ofInt 13 ∧
      transformNormal Float32.sqrtf ⟨0, Float32.ofInt 5, Float32.ofInt 12, 0⟩
          (translationOf 0 0 0)
        = some ⟨0, Float32.scaled 12905551 (-25), Float32.scaled 15486662 (-24), 0⟩ ∧
      Float32.ofInt 12 / Float32.ofInt 13 = Float32.scaled 15486661 (-24) ∧
      Float32.scaled 15486662 (-24) ≠ Float32.ofInt 12 / Float32.ofInt 13 ∧
      (1 : Float32) / Float32.ofInt 13 = Float32.scaled 10324441 (-27) ∧
      vecLength Float32.sqrtf (Float32.ofInt 3, (0 : Float32), Float32.ofInt 4)
        = Float32.ofInt 5 ∧
      transformNormal Float32.sqrtf ⟨Float32.ofInt 3, 0, Float32.ofInt 4, 0⟩
          (translationOf 0 0 0)
        = some ⟨Float32.scaled 10066330 (-24), 0, Float32.scaled 13421773 (-24), 0⟩ ∧
      (Float32.scaled 10066330 (-24)).val = Binary32.fin false 10066330 (-24) ∧
      5 * 10066330 ≠ 3 * 2 ^ 24 := by
  refine ⟨?_, ?_, ?_, ?_, ?_, ?_, ?_, ?_, ?_, ?_⟩ <;> decide

/-- C18 amended. For every record and transform and every arithmetic the call
of `transformNormal` returns without dividing by zero, and leaves the fourth
component as it was. With `v` the vector that the linear part of the
transform makes of the record and `l` its length as the code computes it: when
`l` compares equal to zero the first three components of the result are those
of `v` times zero, which under the laws of float arithmetic are zero;
otherwise they are the components of `v` multiplied by the reciprocal `1 / l`,
which in exact arithmetic, over a field, is `v` divided by its length. The
entries 12 to 14 of the transform do not enter the result. -/
theorem C18_transformNormal_zero_guard {F : Type} [Add F] [Mul F] [Div F] [Zero F] [One F]
    [BEq F] (sqrtf : F → F) (ptr : Attr F) (transform : Nat → F) :
    ∃ r, transformNormal sqrtf ptr transform = some r ∧ r.f3 = ptr.f3 ∧
      ((vecLength sqrtf (linearPart ptr transform) == 0) = true →
        r.f0 = (linearPart ptr transform).1 * 0 ∧ r.f1 = (linearPart ptr transform).2.1 * 0
          ∧ r.f2 = (linearPart ptr transform).2.2 * 0) ∧
      (FloatLaws F sqrtf → (vecLength sqrtf (linearPart ptr transform) == 0) = true →
        r.f0 = 0 ∧ r.f1 = 0 ∧ r.f2 = 0) ∧
      ((vecLength sqrtf (linearPart ptr transform) == 0) = false →
        r.f0 = (linearPart ptr transform).1 * (1 / vecLength sqrtf (linearPart ptr transform))
          ∧ r.f1 = (linearPart ptr transform).2.1
            * (1 / vecLength sqrtf (linearPart ptr transform))
          ∧ r.f2 = (linearPart ptr transform).2.2
            * (1 / vecLength sqrtf (linearPart ptr transform))) ∧
      (∀ other : Nat → F, (∀ i, i ≠ 12 → i ≠ 13 → i ≠ 14 → other i = transform i) →
        transformNormal sqrtf ptr other = some r) ∧
      (∀ (K : Type) [Field K] [DecidableEq K] (sq : K → K) (p : Attr K) (M : Nat → K),
        vecLength sq (linearPart p M) ≠ 0 →
        ∃ q, transformNormal sq p M = some q
          ∧ q.f0 = (linearPart p M).1 / vecLength sq (linearPart p M)
          ∧ q.f1 = (linearPart p M).2.1 / vecLength sq (linearPart p M)
          ∧ q.f2 = (linearPart p M).2.2 / vecLength sq (linearPart p M)) := by
  have hcode : transformNormal sqrtf ptr transform = some (normalOf sqrtf ptr transform) := by
    simp only [transformNormal, normalOf, divide]
    split_ifs <;> rfl
  refine ⟨_, hcode, rfl, ?_, ?_, ?_, ?_, ?_⟩
  · intro h
    simp only [vecLength, linearPart] at h
    simp only [normalOf, linearPart, h, if_true, and_self]
  · intro laws h
    simp only [vecLength, linearPart] at h
    obtain ⟨f0, f1, f2⟩ := laws.mul_zero_of_length_zero _ _ _ h
    simp only [normalOf, h, if_true, f0, f1, f2, and_self]
  · intro h
    simp only [vecLength, linearPart] at h
    simp only [normalOf, linearPart, vecLength, h, Bool.false_eq_true, if_false, and_self]
  · intro other ho
    rw [transformNormal_eq]
    simp only [normalOf, ho 0 (by decide) (by decide) (by decide),
      ho 1 (by decide) (by decide) (by decide), ho 2 (by decide) (by decide) (by decide),
      ho 4 (by decide) (by decide) (by decide), ho 5 (by decide) (by decide) (by decide),
      ho 6 (by decide) (by decide) (by decide), ho 8 (by decide) (by decide) (by decide),
      ho 9 (by decide) (by decide) (by decide), ho 10 (by decide) (by decide) (by decide)]
  · intro K _ _ sq p M hne
    refine ⟨_, transformNormal_eq sq p M, ?_⟩
    simp only [vecLength, linearPart] at hne
    have hb : (sq ((p.f0 * M 0 + p.f1 * M 4 + p.f2 * M 8)
          * (p.f0 * M 0 + p.f1 * M 4 + p.f2 * M 8)
        + (p.f0 * M 1 + p.f1 * M 5 + p.f2 * M 9) * (p.f0 * M 1 + p.f1 * M 5 + p.f2 * M 9)
        + (p.f0 * M 2 + p.f1 * M 6 + p.f2 * M 10)
          * (p.f0 * M 2 + p.f1 * M 6 + p.f2 * M 10)) == 0) = false := by
      simpa using hne
    simp only [normalOf, linearPart, vecLength, hb, Bool.false_eq_true, if_false,
      mul_one_div, and_self]

set_option maxRecDepth 100000 in
/-- C18 amended, on floats. Under the translation by `(7, 8, 9)` the record
`(3, 0, 4, 1)` of length 5 becomes `(0.6, 0, 0.8, 1)` in floats, the products
with the float nearest to 1/5; the zero record stays zero; and the record
`(2^-80, 0, 0)`, whose squared length underflows to zero, becomes the zero
vector. The last equation is evaluated on the code itself. -/
theorem C18_transformNormal_zero_guard_witness :
    (∃ r, transformNormal Float32.sqrtf ⟨Float32.ofInt 3, 0, Float32.ofInt 4, 1⟩
          (translationOf (Float32.ofInt 7) (Float32.ofInt 8) (Float32.ofInt 9)) = some r ∧
        r.f3 = 1 ∧ r.f0 = Float32.scaled 10066330 (-24) ∧ r.f1 = 0
          ∧ r.f2 = Float32.scaled 13421773 (-24)) ∧
      (∃ r, transformNormal Float32.sqrtf ⟨0, 0, 0, 1⟩
          (translationOf (Float32.ofInt 7) (Float32.ofInt 8) (Float32.ofInt 9)) = some r ∧
        r.f0 = 0 ∧ r.f1 = 0 ∧ r.f2 = 0) ∧
      (∃ r, transformNormal Float32.sqrtf ⟨Float32.scaled 1 (-80), 0, 0, 1⟩
          (translationOf 0 0 0) = some r ∧
        r.f0 = 0 ∧ r.f1 = 0 ∧ r.f2 = 0) ∧
      transformNormal Float32.sqrtf ⟨Float32.ofInt 3, 0, Float32.ofInt 4, 1⟩
          (translationOf (Float32.ofInt 7) (Float32.ofInt 8) (Float32.ofInt 9))
        = some ⟨Float32.scaled 10066330 (-24), 0, Float32.scaled 13421773 (-24), 1⟩ := by
  refine ⟨?_, ?_, ?_, by decide⟩
  · obtain ⟨r, hr, h3, -, -, hn, -, -⟩ := C18_transformNormal_zero_guard Float32.sqrtf
      ⟨Float32.ofInt 3, 0, Float32.ofInt 4, 1⟩
      (translationOf (Float32.ofInt 7) (Float32.ofInt 8) (Float32.ofInt 9))
    obtain ⟨a, b, c⟩ := hn (by decide)
    exact ⟨r, hr, h3, a.trans (by decide), b.trans (by decide), c.trans (by decide)⟩
  · obtain ⟨r, hr, -, -, hz, -, -, -⟩ := C18_transformNormal_zero_guard Float32.sqrtf
      ⟨0, 0, 0, 1⟩ (translationOf (Float32.ofInt 7) (Float32.ofInt 8) (Float32.ofInt 9))
    exact ⟨r, hr, hz float32_laws (by decide)⟩
  · obtain ⟨r, hr, -, -, hz, -, -, -⟩ := C18_transformNormal_zero_guard Float32.sqrtf
      ⟨Float32.scaled 1 (-80), 0, 0, 1⟩ (translationOf 0 0 0)
    exact ⟨r, hr, hz float32_laws (by decide)⟩

/-- C19: the text formatted into `bufferspec` has 25 characters and the decimal
digits of `n`, which are `e + 1` digits when `10 ^ e ≤ n < 10 ^ (e + 1)` and
one digit for zero. With its terminating NUL it fits the 32 bytes of the array
exactly when `n` is below 1000000; from 1000000 on it needs more than 32
bytes and the call writes past the array. -/
theorem C19_bufferspec_fits_iff_below_1000000 (n : Nat) :
    (glbBufferSpec n).length = 25 + (Nat.repr n).length ∧
      (∀ e, 10 ^ e ≤ n → n < 10 ^ (e + 1) → (Nat.repr n).length = e + 1) ∧
      (n = 0 → (Nat.repr n).length = 1) ∧
      ((glbBufferSpec n).length + 1 ≤ 32 ↔ n < 1000000) ∧
      (sprintf 32 (glbBufferSpec n) = some (glbBufferSpec n) ↔ n < 1000000) ∧
      (1000000 ≤ n →
        32 < (glbBufferSpec n).length + 1 ∧ sprintf 32 (glbBufferSpec n) = none) := by
  have hrepr : (Nat.repr n).length = (fmt_zu n).length := by
    simp [Nat.repr, fmt_zu, String.length, List.asString]
  have hlen := glbBufferSpec_length n
  refine ⟨by rw [hlen, hrepr], ?_, ?_, ?_, ?_, ?_⟩
  · intro e h1 h2
    have hup := Nat.toDigitsCore_length 10 (by decide) (n + 1) n (e + 1) h2 (by omega)
    have he : e < n + 1 := by
      have : e < 10 ^ e := Nat.lt_pow_self (by decide) e
      omega
    have hlow := toDigitsCore_length_ge (n + 1) n e [] h1 he
    simp only [List.length_nil, Nat.add_zero] at hlow
    rw [hrepr]
    simp only [fmt_zu, Nat.toDigits, List.length_map]
    omega
  · intro h0
    subst h0
    decide
  · constructor
    · intro h
      by_contra hn
      have := fmt_zu_length_ge n (by omega)
      omega
    · intro h
      have := fmt_zu_length_le n h
      omega
  · constructor
    · intro h
      by_contra hn
      rw [sprintf_glbBufferSpec_overflow n (by omega)] at h
      cases h
    · exact sprintf_glbBufferSpec n
  · intro h
    have := fmt_zu_length_ge n h
    exact ⟨by omega, sprintf_glbBufferSpec_overflow n h⟩

/-- C20: for every record and transform, the fourth component of the record
after `transformPosition` and after `transformNormal` is the one it had
before, whatever the arithmetic; so in every stream that the extractor builds
the fourth components are those of the decoded records. Both functions take
the transform as an argument they only read. -/
theorem C20_component_3_unchanged {F : Type} [Add F] [Mul F] [Div F] [Zero F] [One F]
    [BEq F] (sqrtf : F → F) (ptr : Attr F) (transform : Nat → F)
    (attr : cgltf_attribute F) :
    (transformPosition ptr transform).f3 = ptr.f3 ∧
      (∃ r, transformNormal sqrtf ptr transform = some r ∧ r.f3 = ptr.f3) ∧
      (∃ s, parseAttribute sqrtf transform attr = some s ∧
        s.data.map (fun a => a.f3) = (readFloats attr.data).map (fun a => a.f3)) := by
  refine ⟨rfl, ⟨_, transformNormal_eq sqrtf ptr transform, rfl⟩,
    ⟨_, parseAttribute_eq sqrtf transform attr, ?_⟩⟩
  simp only [streamOf]
  split_ifs
  · rw [List.map_map]
    rfl
  · rw [List.map_map]
    rfl
  · rfl

end Gltfpack
